import Mathlib

/-! The agent loop of model-cli, `main.go`.

A shallow embedding of `main.go` (package `main`): the data model
(`Message`, `Operation`, `Edit`), the operation parser `parseOps`, the
executor `executeOps`, the four provider backends behind `callProvider`, and
the turn loop of `main`.

The Go program talks to three things outside itself: the shell, the file
system and the HTTP endpoint of a provider.  They appear here as the fields of
an environment record `Env`; the program state they act on is a `World`, and
every interaction the program starts is recorded in a trace of `Event`s.

`encoding/json` is embedded as a value type `Json`, a scanner for the JSON
grammar over the characters of a string, and one decoder per Go destination
type used by `main.go`.
-/

namespace ModelCli

/-! ## JSON values and the scanner of `encoding/json` -/

/-- A JSON value.  Numbers keep their source text: no destination type of
`main.go` stores a number. -/
inductive Json where
  | null
  | bool (b : Bool)
  | num (raw : String)
  | str (s : String)
  | arr (items : List Json)
  | obj (members : List (String × Json))
  deriving Inhabited

/-- Outcome of scanning a prefix of the input: a value and the unread rest, a
syntax error, or recursion budget used up (shown below never to happen for the
budget `parseJson` supplies). -/
inductive Scan (α : Type) where
  | ok (a : α) (rest : List Char)
  | bad
  | starved
  deriving Inhabited

/-- The four characters the scanner skips between tokens (`isSpace`). -/
def isSpace (c : Char) : Bool :=
  c == ' ' || c == '\t' || c == '\r' || c == '\n'

/-- Drop leading white space. -/
def skipSpace : List Char → List Char
  | [] => []
  | c :: cs => if isSpace c then skipSpace cs else c :: cs

/-- Decimal digit test. -/
def isDigit (c : Char) : Bool := '0' ≤ c && c ≤ '9'

/-- Value of a hexadecimal digit, as in `getu4`. -/
def hexVal (c : Char) : Option Nat :=
  if '0' ≤ c ∧ c ≤ '9' then some (c.toNat - '0'.toNat)
  else if 'a' ≤ c ∧ c ≤ 'f' then some (c.toNat - 'a'.toNat + 10)
  else if 'A' ≤ c ∧ c ≤ 'F' then some (c.toNat - 'A'.toNat + 10)
  else none

/-- The function `getu4`: the code unit written as a backslash, `u` and four
hexadecimal digits at the head of the input, if there is one. -/
def getu4 : List Char → Option Nat
  | b :: u :: h1 :: h2 :: h3 :: h4 :: _ =>
    if b = '\\' ∧ u = 'u' then
      match hexVal h1, hexVal h2, hexVal h3, hexVal h4 with
      | some a, some b, some c, some d => some (((a * 16 + b) * 16 + c) * 16 + d)
      | _, _, _, _ => none
    else none
  | _ => none

/-- The Unicode replacement character U+FFFD. -/
def replacementChar : Char := Char.ofNat 0xFFFD

/-- The function `utf16.DecodeRune` on a first unit and an optional second
one. -/
def decodeSurrogates (r1 : Nat) (r2 : Option Nat) : Char :=
  match r2 with
  | some lo =>
    if 0xD800 ≤ r1 ∧ r1 < 0xDC00 ∧ 0xDC00 ≤ lo ∧ lo < 0xE000 then
      Char.ofNat ((r1 - 0xD800) * 1024 + (lo - 0xDC00) + 0x10000)
    else replacementChar
  | none => replacementChar

/-- Single-character escapes of a JSON string. -/
def simpleEscape (c : Char) : Option Char :=
  if c = '"' then some '"'
  else if c = '\\' then some '\\'
  else if c = '/' then some '/'
  else if c = 'b' then some (Char.ofNat 8)
  else if c = 'f' then some (Char.ofNat 12)
  else if c = 'n' then some '\n'
  else if c = 'r' then some '\r'
  else if c = 't' then some '\t'
  else none

/-- Scan the inside of a string literal, the opening quote already read, and
unquote it (scanner states `stateInString`, `stateInStringEsc*`, then
`unquote`). -/
def scanString : Nat → List Char → Scan (List Char)
  | 0, _ => .starved
  | _ + 1, [] => .bad
  | fuel + 1, c :: cs =>
    if c = '"' then .ok [] cs
    else if c = '\\' then
      match cs with
      | [] => .bad
      | e :: rest =>
        if e = 'u' then
          match getu4 (c :: cs) with
          | none => .bad
          | some r =>
            if 0xD800 ≤ r ∧ r < 0xE000 then
              let after := rest.drop 4
              let dec := decodeSurrogates r (getu4 after)
              if dec ≠ replacementChar then
                match scanString fuel (after.drop 6) with
                | .ok s out => .ok (dec :: s) out
                | .bad => .bad
                | .starved => .starved
              else
                match scanString fuel after with
                | .ok s out => .ok (replacementChar :: s) out
                | .bad => .bad
                | .starved => .starved
            else
              match scanString fuel (rest.drop 4) with
              | .ok s out => .ok (Char.ofNat r :: s) out
              | .bad => .bad
              | .starved => .starved
        else
          match simpleEscape e with
          | none => .bad
          | some ch =>
            match scanString fuel rest with
            | .ok s out => .ok (ch :: s) out
            | .bad => .bad
            | .starved => .starved
    else if c.toNat < 0x20 then .bad
    else
      match scanString fuel cs with
      | .ok s out => .ok (c :: s) out
      | .bad => .bad
      | .starved => .starved

/-- Split off the leading run of decimal digits. -/
def takeDigits : List Char → List Char × List Char
  | [] => ([], [])
  | c :: cs =>
    if isDigit c then ((takeDigits cs).1.cons c, (takeDigits cs).2) else ([], c :: cs)

/-- Integer part of a number (`state0`, `state1`): a lone `0`, or a nonzero
digit and further digits. -/
def scanInt : List Char → Option (List Char × List Char)
  | [] => none
  | c :: cs =>
    if c = '0' then some (['0'], cs)
    else if isDigit c then some (c :: (takeDigits cs).1, (takeDigits cs).2)
    else none

/-- Optional fraction (`stateDot`, `stateDot0`): a dot needs a digit. -/
def scanFrac : List Char → Option (List Char × List Char)
  | [] => some ([], [])
  | c :: cs =>
    if c = '.' then
      match takeDigits cs with
      | ([], _) => none
      | (ds, rest) => some (c :: ds, rest)
    else some ([], c :: cs)

/-- Optional exponent (`stateE`, `stateESign`, `stateE0`). -/
def scanExp : List Char → Option (List Char × List Char)
  | [] => some ([], [])
  | c :: cs =>
    if c = 'e' ∨ c = 'E' then
      match cs with
      | [] => none
      | s :: rest =>
        if s = '+' ∨ s = '-' then
          match takeDigits rest with
          | ([], _) => none
          | (ds, out) => some (c :: s :: ds, out)
        else
          match takeDigits cs with
          | ([], _) => none
          | (ds, out) => some (c :: ds, out)
    else some ([], c :: cs)

/-- A number literal. -/
def scanNumber (cs : List Char) : Scan (List Char) :=
  let body := match cs with
    | [] => cs
    | c :: rest => if c = '-' then rest else cs
  let sign : List Char := match cs with
    | [] => []
    | c :: _ => if c = '-' then ['-'] else []
  match scanInt body with
  | none => .bad
  | some (i, r1) =>
    match scanFrac r1 with
    | none => .bad
    | some (f, r2) =>
      match scanExp r2 with
      | none => .bad
      | some (e, r3) => .ok (sign ++ i ++ f ++ e) r3

/-- Read the given keyword off the head of the input. -/
def scanWord : List Char → List Char → Option (List Char)
  | [], cs => some cs
  | _ :: _, [] => none
  | w :: ws, c :: cs => if w = c then scanWord ws cs else none

/-- Nesting limit of the scanner (`maxNestingDepth`). -/
def maxNestingDepth : Nat := 10000

mutual
/-- One JSON value at the head of the input (no leading white space);
`depth` is the number of arrays and objects currently open. -/
def parseValue : Nat → Nat → List Char → Scan Json
  | 0, _, _ => .starved
  | _ + 1, _, [] => .bad
  | fuel + 1, depth, c :: cs =>
    if c = '{' then
      if depth + 1 > maxNestingDepth then .bad
      else
        match skipSpace cs with
        | [] => .bad
        | d :: rest =>
          if d = '}' then .ok (.obj []) rest
          else
            match parseMembers fuel (depth + 1) (d :: rest) with
            | .ok ms out => .ok (.obj ms) out
            | .bad => .bad
            | .starved => .starved
    else if c = '[' then
      if depth + 1 > maxNestingDepth then .bad
      else
        match skipSpace cs with
        | [] => .bad
        | d :: rest =>
          if d = ']' then .ok (.arr []) rest
          else
            match parseElems fuel (depth + 1) (d :: rest) with
            | .ok xs out => .ok (.arr xs) out
            | .bad => .bad
            | .starved => .starved
    else if c = '"' then
      match scanString (cs.length + 1) cs with
      | .ok s out => .ok (.str (String.mk s)) out
      | .bad => .bad
      | .starved => .starved
    else if c = '-' ∨ isDigit c then
      match scanNumber (c :: cs) with
      | .ok s out => .ok (.num (String.mk s)) out
      | .bad => .bad
      | .starved => .starved
    else if c = 't' then
      match scanWord ['r', 'u', 'e'] cs with
      | some out => .ok (.bool true) out
      | none => .bad
    else if c = 'f' then
      match scanWord ['a', 'l', 's', 'e'] cs with
      | some out => .ok (.bool false) out
      | none => .bad
    else if c = 'n' then
      match scanWord ['u', 'l', 'l'] cs with
      | some out => .ok .null out
      | none => .bad
    else .bad
/-- The elements of an array from the head of one element on, up to and
including the closing bracket. -/
def parseElems : Nat → Nat → List Char → Scan (List Json)
  | 0, _, _ => .starved
  | fuel + 1, depth, cs =>
    match parseValue fuel depth cs with
    | .bad => .bad
    | .starved => .starved
    | .ok v r =>
      match skipSpace r with
      | [] => .bad
      | d :: rest =>
        if d = ',' then
          match parseElems fuel depth (skipSpace rest) with
          | .ok vs out => .ok (v :: vs) out
          | .bad => .bad
          | .starved => .starved
        else if d = ']' then .ok [v] rest
        else .bad
/-- The members of an object from the head of one key on, up to and
including the closing brace. -/
def parseMembers : Nat → Nat → List Char → Scan (List (String × Json))
  | 0, _, _ => .starved
  | _ + 1, _, [] => .bad
  | fuel + 1, depth, q :: cs =>
    if q = '"' then
      match scanString (cs.length + 1) cs with
      | .bad => .bad
      | .starved => .starved
      | .ok k r =>
        match skipSpace r with
        | [] => .bad
        | colon :: r1 =>
          if colon = ':' then
            match parseValue fuel depth (skipSpace r1) with
            | .bad => .bad
            | .starved => .starved
            | .ok v r2 =>
              match skipSpace r2 with
              | [] => .bad
              | d :: rest =>
                if d = ',' then
                  match parseMembers fuel depth (skipSpace rest) with
                  | .ok ms out => .ok ((String.mk k, v) :: ms) out
                  | .bad => .bad
                  | .starved => .starved
                else if d = '}' then .ok [(String.mk k, v)] rest
                else .bad
          else .bad
    else .bad
end

/-- The syntax check and value reading of `json.Unmarshal` on a whole input:
white space, one value, white space, end of input. -/
def parseJson (s : String) : Option Json :=
  match parseValue (2 * s.data.length + 2) 0 (skipSpace s.data) with
  | .ok v rest => if skipSpace rest = [] then some v else none
  | .bad => none
  | .starved => none

/-! ## The data model of `main.go` and the decoders of `json.Unmarshal` -/

/-- The Go struct `Message`. -/
structure Message where
  role : String
  content : String
  deriving DecidableEq, Repr, Inhabited

/-- The Go struct `Edit`. -/
structure Edit where
  path : String
  content : String
  deriving DecidableEq, Repr, Inhabited

/-- The Go struct `Operation`; `edit` is the pointer field `*Edit`, `none` for
`nil`. -/
structure Operation where
  shell : String
  edit : Option Edit
  done : Bool
  deriving DecidableEq, Repr, Inhabited

/-- A Go `error` value as far as `main.go` can tell errors apart: an error
with a message (`errors.New`, or one reported by the network layer), a
`*json.SyntaxError`, or a `*json.UnmarshalTypeError`. -/
inductive GoError where
  | text (msg : String)
  | jsonSyntax
  | jsonType
  deriving DecidableEq, Repr, Inhabited

/-- Case folding of one character of an object key (`foldRune`): ASCII letters
to upper case, and the two non-ASCII characters whose simple case folding
reaches an ASCII letter, U+017F to `S` and U+212A to `K`. -/
def foldRune (c : Char) : Char :=
  if 'a' ≤ c ∧ c ≤ 'z' then Char.ofNat (c.toNat - 32)
  else if c = Char.ofNat 0x17F then 'S'
  else if c = Char.ofNat 0x212A then 'K'
  else c

/-- Whether an object key selects the struct field with the given JSON name:
`encoding/json` matches keys to field names up to case folding. -/
def keyIs (key field : String) : Bool :=
  key.data.map foldRune == field.data.map foldRune

/-- Decode into a Go `string`: a JSON string is stored, `null` leaves the
current value, anything else is a type error. -/
def decodeString (v : Json) (cur : String) : Except GoError String :=
  match v with
  | .str s => .ok s
  | .null => .ok cur
  | _ => .error .jsonType

/-- Decode into a Go `bool`. -/
def decodeBool (v : Json) (cur : Bool) : Except GoError Bool :=
  match v with
  | .bool b => .ok b
  | .null => .ok cur
  | _ => .error .jsonType

/-- Decode a JSON array into a Go slice whose current elements are `cur`:
element `i` is decoded into the current element `i` when there is one and into
a zero value otherwise; the result has one element per array element. -/
def decodeSlice {α : Type} (dec : Json → α → Except GoError α) (zero : α) :
    List Json → List α → Except GoError (List α)
  | [], _ => .ok []
  | x :: xs, cur =>
    match dec x (cur.headD zero) with
    | .error e => .error e
    | .ok a =>
      match decodeSlice dec zero xs cur.tail with
      | .error e => .error e
      | .ok as => .ok (a :: as)

/-- The members of an object decoded, in order, into an `Edit`. -/
def decodeEditFields : List (String × Json) → Edit → Except GoError Edit
  | [], cur => .ok cur
  | (k, v) :: rest, cur =>
    if keyIs k "path" then
      match decodeString v cur.path with
      | .error e => .error e
      | .ok p => decodeEditFields rest { cur with path := p }
    else if keyIs k "content" then
      match decodeString v cur.content with
      | .error e => .error e
      | .ok c => decodeEditFields rest { cur with content := c }
    else decodeEditFields rest cur

/-- Decode into the pointer field `*Edit`: `null` sets it to `nil`, an object
is decoded into the struct pointed to, allocated first when the pointer is
`nil`. -/
def decodeEditPtr (v : Json) (cur : Option Edit) : Except GoError (Option Edit) :=
  match v with
  | .null => .ok none
  | .obj ms =>
    match decodeEditFields ms (cur.getD ⟨"", ""⟩) with
    | .error e => .error e
    | .ok e => .ok (some e)
  | _ => .error .jsonType

/-- The members of an object decoded, in order, into an `Operation`. -/
def decodeOperationFields : List (String × Json) → Operation → Except GoError Operation
  | [], cur => .ok cur
  | (k, v) :: rest, cur =>
    if keyIs k "shell" then
      match decodeString v cur.shell with
      | .error e => .error e
      | .ok s => decodeOperationFields rest { cur with shell := s }
    else if keyIs k "edit" then
      match decodeEditPtr v cur.edit with
      | .error e => .error e
      | .ok ed => decodeOperationFields rest { cur with edit := ed }
    else if keyIs k "done" then
      match decodeBool v cur.done with
      | .error e => .error e
      | .ok d => decodeOperationFields rest { cur with done := d }
    else decodeOperationFields rest cur

/-- Decode into an `Operation` struct. -/
def decodeOperation (v : Json) (cur : Operation) : Except GoError Operation :=
  match v with
  | .obj ms => decodeOperationFields ms cur
  | .null => .ok cur
  | _ => .error .jsonType

/-- The zero `Operation`. -/
def Operation.zero : Operation := ⟨"", none, false⟩

/-- Decode into the fresh slice `var ops []Operation`: an array gives one
element per array element, `null` leaves the slice `nil`. -/
def decodeOps (v : Json) : Except GoError (List Operation) :=
  match v with
  | .arr xs => decodeSlice decodeOperation Operation.zero xs []
  | .null => .ok []
  | _ => .error .jsonType

/-- The function `parseOps`. -/
def parseOps (resp : String) : Except GoError (List Operation) :=
  match parseJson resp with
  | none => .error .jsonSyntax
  | some v => decodeOps v

/-! ### Response envelopes of the providers -/

/-- Element type of `Choices` in `callOpenAI` and `callXAI`. -/
structure Choice where
  message : Message
  deriving DecidableEq, Repr, Inhabited

/-- The local `data` struct of `callOpenAI` and `callXAI`. -/
structure ChatData where
  choices : List Choice
  deriving DecidableEq, Repr, Inhabited

/-- The local `data` struct of `callAnthropic`. -/
structure AnthropicData where
  content : String
  deriving DecidableEq, Repr, Inhabited

/-- Element type of `Parts` in `callGemini`. -/
structure Part where
  text : String
  deriving DecidableEq, Repr, Inhabited

/-- Element type of `Candidates` in `callGemini`; `parts` is the field
`Content.Parts`. -/
structure Candidate where
  parts : List Part
  deriving DecidableEq, Repr, Inhabited

/-- The local `data` struct of `callGemini`. -/
structure GeminiData where
  candidates : List Candidate
  deriving DecidableEq, Repr, Inhabited

/-- The members of an object decoded into a `Message`. -/
def decodeMessageFields : List (String × Json) → Message → Except GoError Message
  | [], cur => .ok cur
  | (k, v) :: rest, cur =>
    if keyIs k "role" then
      match decodeString v cur.role with
      | .error e => .error e
      | .ok r => decodeMessageFields rest { cur with role := r }
    else if keyIs k "content" then
      match decodeString v cur.content with
      | .error e => .error e
      | .ok c => decodeMessageFields rest { cur with content := c }
    else decodeMessageFields rest cur

/-- Decode into a `Message` struct. -/
def decodeMessage (v : Json) (cur : Message) : Except GoError Message :=
  match v with
  | .obj ms => decodeMessageFields ms cur
  | .null => .ok cur
  | _ => .error .jsonType

/-- The members of an object decoded into a `Choice`. -/
def decodeChoiceFields : List (String × Json) → Choice → Except GoError Choice
  | [], cur => .ok cur
  | (k, v) :: rest, cur =>
    if keyIs k "message" then
      match decodeMessage v cur.message with
      | .error e => .error e
      | .ok msg => decodeChoiceFields rest { cur with message := msg }
    else decodeChoiceFields rest cur

/-- Decode into a `Choice` struct. -/
def decodeChoice (v : Json) (cur : Choice) : Except GoError Choice :=
  match v with
  | .obj ms => decodeChoiceFields ms cur
  | .null => .ok cur
  | _ => .error .jsonType

/-- Decode into a slice field: an array element by element, `null` to `nil`. -/
def decodeSliceField {α : Type} (dec : Json → α → Except GoError α) (zero : α)
    (v : Json) (cur : List α) : Except GoError (List α) :=
  match v with
  | .arr xs => decodeSlice dec zero xs cur
  | .null => .ok []
  | _ => .error .jsonType

/-- The members of an object decoded into a `ChatData`. -/
def decodeChatFields : List (String × Json) → ChatData → Except GoError ChatData
  | [], cur => .ok cur
  | (k, v) :: rest, cur =>
    if keyIs k "choices" then
      match decodeSliceField decodeChoice ⟨⟨"", ""⟩⟩ v cur.choices with
      | .error e => .error e
      | .ok cs => decodeChatFields rest { cur with choices := cs }
    else decodeChatFields rest cur

/-- The call `json.Unmarshal(rbody, &data)` of `callOpenAI` and `callXAI`. -/
def unmarshalChat (rbody : String) : Except GoError ChatData :=
  match parseJson rbody with
  | none => .error .jsonSyntax
  | some (.obj ms) => decodeChatFields ms ⟨[]⟩
  | some .null => .ok ⟨[]⟩
  | some _ => .error .jsonType

/-- The members of an object decoded into an `AnthropicData`. -/
def decodeAnthropicFields :
    List (String × Json) → AnthropicData → Except GoError AnthropicData
  | [], cur => .ok cur
  | (k, v) :: rest, cur =>
    if keyIs k "content" then
      match decodeString v cur.content with
      | .error e => .error e
      | .ok c => decodeAnthropicFields rest { cur with content := c }
    else decodeAnthropicFields rest cur

/-- The call `json.Unmarshal(rbody, &data)` of `callAnthropic`. -/
def unmarshalAnthropic (rbody : String) : Except GoError AnthropicData :=
  match parseJson rbody with
  | none => .error .jsonSyntax
  | some (.obj ms) => decodeAnthropicFields ms ⟨""⟩
  | some .null => .ok ⟨""⟩
  | some _ => .error .jsonType

/-- The members of an object decoded into a `Part`. -/
def decodePartFields : List (String × Json) → Part → Except GoError Part
  | [], cur => .ok cur
  | (k, v) :: rest, cur =>
    if keyIs k "text" then
      match decodeString v cur.text with
      | .error e => .error e
      | .ok t => decodePartFields rest { cur with text := t }
    else decodePartFields rest cur

/-- Decode into a `Part` struct. -/
def decodePart (v : Json) (cur : Part) : Except GoError Part :=
  match v with
  | .obj ms => decodePartFields ms cur
  | .null => .ok cur
  | _ => .error .jsonType

/-- The members of the object under `content`, decoded into the parts of a
candidate. -/
def decodeContentFields : List (String × Json) → List Part → Except GoError (List Part)
  | [], cur => .ok cur
  | (k, v) :: rest, cur =>
    if keyIs k "parts" then
      match decodeSliceField decodePart ⟨""⟩ v cur with
      | .error e => .error e
      | .ok ps => decodeContentFields rest ps
    else decodeContentFields rest cur

/-- Decode into the struct field `Content` of a candidate. -/
def decodeContent (v : Json) (cur : List Part) : Except GoError (List Part) :=
  match v with
  | .obj ms => decodeContentFields ms cur
  | .null => .ok cur
  | _ => .error .jsonType

/-- The members of an object decoded into a `Candidate`. -/
def decodeCandidateFields : List (String × Json) → Candidate → Except GoError Candidate
  | [], cur => .ok cur
  | (k, v) :: rest, cur =>
    if keyIs k "content" then
      match decodeContent v cur.parts with
      | .error e => .error e
      | .ok ps => decodeCandidateFields rest { cur with parts := ps }
    else decodeCandidateFields rest cur

/-- Decode into a `Candidate` struct. -/
def decodeCandidate (v : Json) (cur : Candidate) : Except GoError Candidate :=
  match v with
  | .obj ms => decodeCandidateFields ms cur
  | .null => .ok cur
  | _ => .error .jsonType

/-- The members of an object decoded into a `GeminiData`. -/
def decodeGeminiFields : List (String × Json) → GeminiData → Except GoError GeminiData
  | [], cur => .ok cur
  | (k, v) :: rest, cur =>
    if keyIs k "candidates" then
      match decodeSliceField decodeCandidate ⟨[]⟩ v cur.candidates with
      | .error e => .error e
      | .ok cs => decodeGeminiFields rest { cur with candidates := cs }
    else decodeGeminiFields rest cur

/-- The call `json.Unmarshal(rbody, &data)` of `callGemini`. -/
def unmarshalGemini (rbody : String) : Except GoError GeminiData :=
  match parseJson rbody with
  | none => .error .jsonSyntax
  | some (.obj ms) => decodeGeminiFields ms ⟨[]⟩
  | some .null => .ok ⟨[]⟩
  | some _ => .error .jsonType

/-! ## The outside world -/

/-- State outside the program.  A path names a file through `node`: two paths
with the same node are one file (`./a` and `a`, a link and its target), and a
path under which nothing exists yet names the file a write would create.
`files` is the content of each file, `none` where there is none; `ext` is
whatever else the shell and the network can see or change. -/
structure World (X : Type) where
  node : String → String
  files : String → Option String
  ext : X

/-- Reading the file at a path. -/
def World.read {X : Type} (w : World X) (path : String) : Option String :=
  w.files (w.node path)

/-- An HTTP request as built by a backend; `body` is the value handed to
`json.Marshal`. -/
structure HttpRequest where
  url : String
  headers : List (String × String)
  body : Json

/-- An interaction started by the program. -/
inductive Event where
  | call (provider model : String) (convo : List Message)
  | post (req : HttpRequest)
  | exec (cmd : String)
  | write (path content : String)
  | print (line : String)
  | printErr (label : String) (err : GoError)

/-- A call of `callProvider`. -/
def Event.isCall : Event → Bool
  | .call _ _ _ => true
  | _ => false

/-- A shell command started or a file written. -/
def Event.isAction : Event → Bool
  | .exec _ => true
  | .write _ _ => true
  | _ => false

/-- The line `Task complete` printed. -/
def Event.isComplete : Event → Bool
  | .print line => line == "Task complete"
  | _ => false

/-- The collaborators of the program.
* `getenv` is `os.Getenv`.
* `httpDo` is `http.DefaultClient.Do` followed by `io.ReadAll`: a transport
  error, or the bytes of the response body.
* `bash` is `exec.Command("bash", "-c", cmd).CombinedOutput()`: the combined
  output and the error, if any (nonzero exit or failure to launch).
* `writeFail` says whether `ioutil.WriteFile` fails on a path and content in a
  world, and then with which error and leaving which world.
* `writeDevice` says whether a path on which `ioutil.WriteFile` succeeds names
  something other than a regular file (a device such as `/dev/null`, a pipe),
  and then which world the write leaves. -/
structure Env (X : Type) where
  getenv : String → String
  httpDo : HttpRequest → World X → Except String String × World X
  bash : String → World X → (String × Option String) × World X
  writeFail : String → String → World X → Option (String × World X)
  writeDevice : String → String → World X → Option (World X)

/-- Program state: the world and the trace of interactions so far. -/
structure Machine (X : Type) where
  world : World X
  trace : List Event

/-- Record an event. -/
def Machine.log {X : Type} (m : Machine X) (e : Event) : Machine X :=
  ⟨m.world, m.trace ++ [e]⟩

/-- The world after a successful `WriteFile(path, content, 0644)` on a regular
file: the file that `path` names is created or truncated and holds `content`;
which file each path names, and every other file, is as before. -/
def World.store {X : Type} (w : World X) (path content : String) : World X :=
  ⟨w.node, fun n => if n = w.node path then some content else w.files n, w.ext⟩

/-- The call `ioutil.WriteFile(path, []byte(content), 0644)`: it fails, or it
succeeds on something that is not a regular file, or it succeeds on a regular
file. -/
def writeFile {X : Type} (env : Env X) (path content : String) (m : Machine X) :
    Option String × Machine X :=
  match env.writeFail path content m.world with
  | some (err, w) => (some err, ⟨w, m.trace ++ [.write path content]⟩)
  | none =>
    match env.writeDevice path content m.world with
    | some w => (none, ⟨w, m.trace ++ [.write path content]⟩)
    | none => (none, ⟨m.world.store path content, m.trace ++ [.write path content]⟩)

/-! ## `executeOps` -/

/-- The text added to `out` for a shell command, lines 89 to 93: the two
`fmt.Sprintf` calls, chosen by `err != nil`. -/
def shellEntry (cmd output : String) (err : Option String) : String :=
  match err with
  | some e => "$ " ++ cmd ++ "\n" ++ output ++ "\n(error: " ++ e ++ ")\n"
  | none => "$ " ++ cmd ++ "\n" ++ output ++ "\n"

/-- The shell part of the loop body of `executeOps`: lines 86 to 94. -/
def execShell {X : Type} (env : Env X) (op : Operation) (out : String) (m : Machine X) :
    String × Machine X :=
  if op.shell ≠ "" then
    (out ++ shellEntry op.shell (env.bash op.shell m.world).1.1 (env.bash op.shell m.world).1.2,
      ⟨(env.bash op.shell m.world).2, m.trace ++ [.exec op.shell]⟩)
  else (out, m)

/-- The edit part of the loop body of `executeOps`: lines 95 to 98.  The
result of `WriteFile` is dropped. -/
def execEdit {X : Type} (env : Env X) (op : Operation) (out : String) (m : Machine X) :
    String × Machine X :=
  match op.edit with
  | some e => (out ++ ("edited " ++ e.path ++ "\n"), (writeFile env e.path e.content m).2)
  | none => (out, m)

/-- One iteration of the loop of `executeOps`. -/
def execOp {X : Type} (env : Env X) (op : Operation) (out : String) (m : Machine X) :
    String × Machine X :=
  execEdit env op (execShell env op out m).1 (execShell env op out m).2

/-- The loop of `executeOps`, from a given value of `out`. -/
def executeLoop {X : Type} (env : Env X) : List Operation → String → Machine X →
    String × Machine X
  | [], out, m => (out, m)
  | op :: ops, out, m => executeLoop env ops (execOp env op out m).1 (execOp env op out m).2

/-- The function `executeOps`. -/
def executeOps {X : Type} (env : Env X) (ops : List Operation) (m : Machine X) :
    String × Machine X :=
  executeLoop env ops "" m

/-! ## The provider backends -/

/-- A `Message` as marshalled. -/
def messageJson (msg : Message) : Json :=
  .obj [("role", .str msg.role), ("content", .str msg.content)]

/-- The request body of `callOpenAI`, `callAnthropic` and `callXAI`; the keys
of a marshalled Go map come out sorted. -/
def chatRequest (model : String) (convo : List Message) : Json :=
  .obj [("messages", .arr (convo.map messageJson)), ("model", .str model)]

/-- The request body of `callGemini`; `contents` stays a `nil` slice when the
conversation is empty. -/
def geminiRequest (convo : List Message) : Json :=
  .obj [("contents",
    if convo = [] then .null
    else .arr (convo.map fun msg =>
      .obj [("parts", .arr [.obj [("text", .str msg.content)]]), ("role", .str msg.role)]))]

/-- Lines 131 to 148, shared by `callOpenAI` and `callXAI`: send the request,
decode the body, take the first choice. -/
def chatExchange {X : Type} (env : Env X) (req : HttpRequest) (m : Machine X) :
    Except GoError String × Machine X :=
  let r := env.httpDo req m.world
  let m1 : Machine X := ⟨r.2, m.trace ++ [.post req]⟩
  match r.1 with
  | .error e => (.error (.text e), m1)
  | .ok rbody =>
    match unmarshalChat rbody with
    | .error e => (.error e, m1)
    | .ok data =>
      match data.choices with
      | [] => (.error (.text "no choices"), m1)
      | c :: _ => (.ok c.message.content, m1)

/-- The function `callOpenAI`. -/
def callOpenAI {X : Type} (env : Env X) (model : String) (convo : List Message)
    (m : Machine X) : Except GoError String × Machine X :=
  let apiKey := env.getenv "OPENAI_API_KEY"
  if apiKey = "" then (.error (.text "OPENAI_API_KEY not set"), m)
  else
    chatExchange env
      { url := "https://api.openai.com/v1/chat/completions"
        headers := [("Authorization", "Bearer " ++ apiKey), ("Content-Type", "application/json")]
        body := chatRequest model convo } m

/-- The function `callXAI`. -/
def callXAI {X : Type} (env : Env X) (model : String) (convo : List Message)
    (m : Machine X) : Except GoError String × Machine X :=
  let apiKey := env.getenv "XAI_API_KEY"
  if apiKey = "" then (.error (.text "XAI_API_KEY not set"), m)
  else
    chatExchange env
      { url := "https://api.x.ai/v1/chat/completions"
        headers := [("Authorization", "Bearer " ++ apiKey), ("Content-Type", "application/json")]
        body := chatRequest model convo } m

/-- Lines 165 to 177 of `callAnthropic`: send the request, decode the body,
return the field `content`. -/
def anthropicExchange {X : Type} (env : Env X) (req : HttpRequest) (m : Machine X) :
    Except GoError String × Machine X :=
  let r := env.httpDo req m.world
  let m1 : Machine X := ⟨r.2, m.trace ++ [.post req]⟩
  match r.1 with
  | .error e => (.error (.text e), m1)
  | .ok rbody =>
    match unmarshalAnthropic rbody with
    | .error e => (.error e, m1)
    | .ok data => (.ok data.content, m1)

/-- The function `callAnthropic`. -/
def callAnthropic {X : Type} (env : Env X) (model : String) (convo : List Message)
    (m : Machine X) : Except GoError String × Machine X :=
  let apiKey := env.getenv "ANTHROPIC_API_KEY"
  if apiKey = "" then (.error (.text "ANTHROPIC_API_KEY not set"), m)
  else
    anthropicExchange env
      { url := "https://api.anthropic.com/v1/messages"
        headers := [("x-api-key", apiKey), ("anthropic-version", "2023-06-01"),
          ("Content-Type", "application/json")]
        body := chatRequest model convo } m

/-- Lines 197 to 218 of `callGemini`: send the request, decode the body, take
the first part of the first candidate. -/
def geminiExchange {X : Type} (env : Env X) (req : HttpRequest) (m : Machine X) :
    Except GoError String × Machine X :=
  let r := env.httpDo req m.world
  let m1 : Machine X := ⟨r.2, m.trace ++ [.post req]⟩
  match r.1 with
  | .error e => (.error (.text e), m1)
  | .ok rbody =>
    match unmarshalGemini rbody with
    | .error e => (.error e, m1)
    | .ok data =>
      match data.candidates with
      | [] => (.error (.text "no response"), m1)
      | cand :: _ =>
        match cand.parts with
        | [] => (.error (.text "no response"), m1)
        | part :: _ => (.ok part.text, m1)

/-- The function `callGemini`. -/
def callGemini {X : Type} (env : Env X) (model : String) (convo : List Message)
    (m : Machine X) : Except GoError String × Machine X :=
  let apiKey := env.getenv "GEMINI_API_KEY"
  if apiKey = "" then (.error (.text "GEMINI_API_KEY not set"), m)
  else
    geminiExchange env
      { url := "https://generativelanguage.googleapis.com/v1beta/models/" ++ model ++
          ":generateContent?key=" ++ apiKey
        headers := [("Content-Type", "application/json")]
        body := geminiRequest convo } m

/-- The function `callProvider`; the call itself is recorded in the trace. -/
def callProvider {X : Type} (env : Env X) (provider model : String) (convo : List Message)
    (m : Machine X) : Except GoError String × Machine X :=
  let m0 := m.log (.call provider model convo)
  if provider = "openai" then callOpenAI env model convo m0
  else if provider = "anthropic" then callAnthropic env model convo m0
  else if provider = "gemini" then callGemini env model convo m0
  else if provider = "xai" then callXAI env model convo m0
  else (.error (.text "unknown provider"), m0)

/-! ## The loop of `main` -/

/-- What one pass through the body of the loop does to the loop: return after
`Task complete`, return after an error, or go on with a longer conversation. -/
inductive Step where
  | done
  | aborted (reason : GoError)
  | next (convo : List Message)
  deriving DecidableEq, Repr

/-- The test `len(ops) == 1 && ops[0].Done` of line 63. -/
def isBareDone : List Operation → Bool
  | [op] => op.done
  | _ => false

/-- The body of the loop of `main`: lines 51 to 71. -/
def turn {X : Type} (env : Env X) (provider model : String) (convo : List Message)
    (m : Machine X) : Step × Machine X :=
  let r := callProvider env provider model convo m
  match r.1 with
  | .error e => (.aborted e, r.2.log (.printErr "error calling provider:" e))
  | .ok resp =>
    match parseOps resp with
    | .error e => (.aborted e, r.2.log (.printErr "parse error:" e))
    | .ok ops =>
      if isBareDone ops then (.done, r.2.log (.print "Task complete"))
      else
        let x := executeOps env ops r.2
        (.next (convo ++ [⟨"assistant", resp⟩, ⟨"user", x.1⟩]), x.2)

/-- How a run ends. -/
inductive Outcome where
  | done
  | aborted (reason : GoError)
  | limit
  | usage
  deriving DecidableEq, Repr

/-- End of a run: how it ended, the conversation at that point, the state. -/
structure Final (X : Type) where
  outcome : Outcome
  convo : List Message
  machine : Machine X

/-- The loop `for i := 0; i < 20; i++` of `main` with `n` iterations left. -/
def run {X : Type} (env : Env X) (provider model : String) :
    Nat → List Message → Machine X → Final X
  | 0, convo, m => ⟨.limit, convo, m⟩
  | n + 1, convo, m =>
    match (turn env provider model convo m).1 with
    | .done => ⟨.done, convo, (turn env provider model convo m).2⟩
    | .aborted e => ⟨.aborted e, convo, (turn env provider model convo m).2⟩
    | .next convo1 => run env provider model n convo1 (turn env provider model convo m).2

/-- The constant `systemPrompt` of `main` (a raw string literal: the
backslash and `n` are two characters). -/
def systemPrompt : String :=
  "You are a coding agent that generates JSON instructions. For each step respond with JSON array of operations. Available operations:\\n\x7b\"shell\": \"<command>\"\x7d to run shell commands, \x7b\"edit\": \x7b\"path\": \"<file>\", \"content\": \"<text>\"\x7d\x7d to write files, or \x7b\"done\": true\x7d when finished."

/-- The turn ceiling of the loop of `main`. -/
def maxTurns : Nat := 20

/-- The initial conversation of `main`. -/
def initialConvo (prompt : String) : List Message :=
  [⟨"system", systemPrompt⟩, ⟨"user", prompt⟩]

/-- The function `main`, on the values of its three flags. -/
def main {X : Type} (env : Env X) (provider model prompt : String) (m : Machine X) :
    Final X :=
  if prompt = "" then ⟨.usage, [], m.log (.print "prompt required")⟩
  else run env provider model maxTurns (initialConvo prompt) m

/-- The interactions one operation starts, whatever their results. -/
def opEvents (op : Operation) : List Event :=
  (if op.shell ≠ "" then [Event.exec op.shell] else []) ++
    (match op.edit with
     | some e => [Event.write e.path e.content]
     | none => [])

/-! ## Specification-side predicates and sample environments -/

/-- The next `n` turns from a conversation and state all go through: each
reply comes back without error, parses, and is not a lone done operation. -/
def Productive {X : Type} (env : Env X) (provider model : String) :
    Nat → List Message → Machine X → Prop
  | 0, _, _ => True
  | n + 1, convo, m =>
    ∃ resp ops, (callProvider env provider model convo m).1 = .ok resp ∧
      parseOps resp = .ok ops ∧ isBareDone ops = false ∧
      Productive env provider model n
        (convo ++ [⟨"assistant", resp⟩,
          ⟨"user", (executeOps env ops (callProvider env provider model convo m).2).1⟩])
        (executeOps env ops (callProvider env provider model convo m).2).2

/-- A sample environment: every credential is set, every HTTP request is
answered with the body `body`, the command `false` exits with status 1 and
every other command prints `ok`, writing `/proc/version` fails, and writing
`/dev/null` succeeds and stores nothing. -/
def sampleEnv (body : String) : Env Unit where
  getenv := fun _ => "secret"
  httpDo := fun _ w => (.ok body, w)
  bash := fun cmd w =>
    if cmd = "false" then (("", some "exit status 1"), w) else (("ok\n", none), w)
  writeFail := fun path _ w =>
    if path = "/proc/version" then some ("open /proc/version: permission denied", w) else none
  writeDevice := fun path _ w => if path = "/dev/null" then some w else none

/-- A sample environment whose network is down. -/
def offlineEnv : Env Unit where
  getenv := fun _ => "secret"
  httpDo := fun _ w => (.error "dial tcp: connection refused", w)
  bash := fun _ w => (("", none), w)
  writeFail := fun _ _ _ => none
  writeDevice := fun _ _ _ => none

/-- A sample path resolution, relative to the working directory: a leading
`./` is dropped. -/
def cleanPath (p : String) : String :=
  match p.data with
  | '.' :: '/' :: rest => String.mk rest
  | _ => p

/-- A sample initial state: no files, empty trace. -/
def sampleStart : Machine Unit := ⟨⟨cleanPath, fun _ => none, ()⟩, []⟩

/-- An OpenAI-style response body carrying the reply `[{"done": true}]`. -/
def doneBody : String :=
  "\x7b\"choices\":[\x7b\"message\":\x7b\"role\":\"assistant\",\"content\":\"[\x7b\\\"done\\\": true\x7d]\"\x7d\x7d]\x7d"

/-- An Anthropic-style response body carrying the reply `[]`. -/
def idleBody : String := "\x7b\"content\":\"[]\"\x7d"

/-- An OpenAI-style response body carrying the reply
`[{"shell":"false"},{"done":true}]`. -/
def mixedBody : String :=
  "\x7b\"choices\":[\x7b\"message\":\x7b\"content\":\"[\x7b\\\"shell\\\":\\\"false\\\"\x7d,\x7b\\\"done\\\":true\x7d]\"\x7d\x7d]\x7d"

/-- An Anthropic-style response body carrying the reply `{not valid json`. -/
def brokenBody : String := "\x7b\"content\":\"\x7bnot valid json\"\x7d"

/-- The state right after the shell command `cmd` was run from `m`. -/
def afterShell {X : Type} (env : Env X) (cmd : String) (m : Machine X) : Machine X :=
  ⟨(env.bash cmd m.world).2, m.trace ++ [.exec cmd]⟩

/-- A sample state in which `hello.txt` and `notes.txt` already exist, and
`/dev/null` reads as empty. -/
def sampleFiles : Machine Unit :=
  ⟨⟨cleanPath, fun n => if n = "hello.txt" then some "previous content"
      else if n = "notes.txt" then some "keep me"
      else if n = "/dev/null" then some "" else none, ()⟩, []⟩

/-- The world in which the write of the last operation of `pre ++ [op]`
happens: after the operations before it and after its own shell command, if
it has one. -/
def beforeWrite {X : Type} (env : Env X) (pre : List Operation) (op : Operation)
    (m : Machine X) : World X :=
  (execShell env op "" (executeOps env pre m).2).2.world

/-- A JSON string. -/
def Json.isStr : Json → Bool
  | .str _ => true
  | _ => false

/-- A JSON boolean. -/
def Json.isBool : Json → Bool
  | .bool _ => true
  | _ => false

/-- The wire format of an edit: an object whose `path` and `content`, where
present, are strings. -/
def isEditObject : Json → Bool
  | .obj ms => ms.all fun kv =>
      if keyIs kv.1 "path" || keyIs kv.1 "content" then kv.2.isStr else true
  | _ => false

/-- The wire format of an operation: an object whose `shell`, where present,
is a string, whose `edit`, where present, is an edit object, and whose `done`,
where present, is a boolean. -/
def isOperationObject : Json → Bool
  | .obj ms => ms.all fun kv =>
      if keyIs kv.1 "shell" then kv.2.isStr
      else if keyIs kv.1 "edit" then isEditObject kv.2
      else if keyIs kv.1 "done" then kv.2.isBool
      else true
  | _ => false

/-- The empty JSON object as a response body. -/
def emptyBody : String := "\x7b\x7d"

/-- A response body with one choice that has no message. -/
def hollowChoiceBody : String := "\x7b\"choices\":[\x7b\x7d]\x7d"

/-- A Gemini-style response body whose first candidate has no parts. -/
def hollowCandidateBody : String := "\x7b\"candidates\":[\x7b\"content\":\x7b\x7d\x7d]\x7d"

/-! ## Lemmas on `executeOps` -/

variable {X : Type}

theorem execShell_out (env : Env X) (op : Operation) (out : String) (m : Machine X) :
    execShell env op out m = (out ++ (execShell env op "" m).1, (execShell env op "" m).2) := by
  unfold execShell
  split <;> simp

theorem execEdit_out (env : Env X) (op : Operation) (out : String) (m : Machine X) :
    execEdit env op out m = (out ++ (execEdit env op "" m).1, (execEdit env op "" m).2) := by
  unfold execEdit
  split <;> simp

theorem execOp_out (env : Env X) (op : Operation) (out : String) (m : Machine X) :
    execOp env op out m = (out ++ (execOp env op "" m).1, (execOp env op "" m).2) := by
  unfold execOp
  rw [execShell_out, execEdit_out]
  simp only []
  rw [execEdit_out env op ((execShell env op "" m).1)]
  simp [String.append_assoc]

theorem executeLoop_out (env : Env X) (ops : List Operation) (out : String) (m : Machine X) :
    executeLoop env ops out m =
      (out ++ (executeLoop env ops "" m).1, (executeLoop env ops "" m).2) := by
  induction ops generalizing out m with
  | nil => simp [executeLoop]
  | cons op ops ih =>
    simp only [executeLoop]
    rw [ih, ih (execOp env op "" m).1, execOp_out]
    simp [String.append_assoc]

theorem executeOps_cons (env : Env X) (op : Operation) (ops : List Operation) (m : Machine X) :
    executeOps env (op :: ops) m =
      ((execOp env op "" m).1 ++ (executeOps env ops (execOp env op "" m).2).1,
        (executeOps env ops (execOp env op "" m).2).2) := by
  unfold executeOps
  simp only [executeLoop]
  rw [executeLoop_out]

theorem executeOps_append (env : Env X) (a b : List Operation) (m : Machine X) :
    executeOps env (a ++ b) m =
      ((executeOps env a m).1 ++ (executeOps env b (executeOps env a m).2).1,
        (executeOps env b (executeOps env a m).2).2) := by
  induction a generalizing m with
  | nil => simp [executeOps, executeLoop]
  | cons op a ih =>
    rw [List.cons_append, executeOps_cons, ih, executeOps_cons]
    simp [String.append_assoc]

theorem writeFile_trace (env : Env X) (path content : String) (m : Machine X) :
    (writeFile env path content m).2.trace = m.trace ++ [Event.write path content] := by
  unfold writeFile
  split
  · rfl
  · split <;> rfl

theorem execOp_trace (env : Env X) (op : Operation) (out : String) (m : Machine X) :
    (execOp env op out m).2.trace = m.trace ++ opEvents op := by
  unfold execOp execEdit execShell opEvents
  split <;> split <;> simp_all [writeFile_trace]

theorem executeOps_trace (env : Env X) (ops : List Operation) (m : Machine X) :
    (executeOps env ops m).2.trace = m.trace ++ ops.flatMap opEvents := by
  induction ops generalizing m with
  | nil => simp [executeOps, executeLoop]
  | cons op ops ih =>
    rw [executeOps_cons]
    simp only []
    rw [ih, execOp_trace]
    simp [List.flatMap_cons]

/-! ## Lemmas on the provider call and the loop -/

theorem chatExchange_trace (env : Env X) (req : HttpRequest) (m : Machine X) :
    (chatExchange env req m).2.trace = m.trace ++ [Event.post req] := by
  unfold chatExchange
  simp only []
  split
  · rfl
  · split
    · rfl
    · split <;> rfl

theorem anthropicExchange_trace (env : Env X) (req : HttpRequest) (m : Machine X) :
    (anthropicExchange env req m).2.trace = m.trace ++ [Event.post req] := by
  unfold anthropicExchange
  simp only []
  split
  · rfl
  · split <;> rfl

theorem geminiExchange_trace (env : Env X) (req : HttpRequest) (m : Machine X) :
    (geminiExchange env req m).2.trace = m.trace ++ [Event.post req] := by
  unfold geminiExchange
  simp only []
  split
  · rfl
  · split
    · rfl
    · split
      · rfl
      · split <;> rfl

theorem callAnthropic_trace (env : Env X) (model : String) (convo : List Message)
    (m : Machine X) :
    (callAnthropic env model convo m).2.trace = m.trace ∨
      ∃ req, (callAnthropic env model convo m).2.trace = m.trace ++ [Event.post req] := by
  unfold callAnthropic
  simp only []
  split
  · exact Or.inl rfl
  · exact Or.inr ⟨_, anthropicExchange_trace _ _ _⟩

theorem callGemini_trace (env : Env X) (model : String) (convo : List Message)
    (m : Machine X) :
    (callGemini env model convo m).2.trace = m.trace ∨
      ∃ req, (callGemini env model convo m).2.trace = m.trace ++ [Event.post req] := by
  unfold callGemini
  simp only []
  split
  · exact Or.inl rfl
  · exact Or.inr ⟨_, geminiExchange_trace _ _ _⟩

theorem callOpenAI_trace (env : Env X) (model : String) (convo : List Message)
    (m : Machine X) :
    (callOpenAI env model convo m).2.trace = m.trace ∨
      ∃ req, (callOpenAI env model convo m).2.trace = m.trace ++ [Event.post req] := by
  unfold callOpenAI
  simp only []
  split
  · exact Or.inl rfl
  · exact Or.inr ⟨_, chatExchange_trace _ _ _⟩

theorem callXAI_trace (env : Env X) (model : String) (convo : List Message)
    (m : Machine X) :
    (callXAI env model convo m).2.trace = m.trace ∨
      ∃ req, (callXAI env model convo m).2.trace = m.trace ++ [Event.post req] := by
  unfold callXAI
  simp only []
  split
  · exact Or.inl rfl
  · exact Or.inr ⟨_, chatExchange_trace _ _ _⟩

/-- A provider call adds to the trace the call itself and at most one HTTP
request. -/
theorem callProvider_trace (env : Env X) (provider model : String) (convo : List Message)
    (m : Machine X) :
    (callProvider env provider model convo m).2.trace
        = m.trace ++ [Event.call provider model convo] ∨
      ∃ req, (callProvider env provider model convo m).2.trace
        = m.trace ++ [Event.call provider model convo, Event.post req] := by
  have key : ∀ t : List Event,
      (t = (m.log (Event.call provider model convo)).trace ∨
        ∃ req, t = (m.log (Event.call provider model convo)).trace ++ [Event.post req]) →
      (t = m.trace ++ [Event.call provider model convo] ∨
        ∃ req, t = m.trace ++ [Event.call provider model convo, Event.post req]) := by
    intro t ht
    rcases ht with h | ⟨req, h⟩
    · exact Or.inl h
    · exact Or.inr ⟨req, by simp [h, Machine.log]⟩
  unfold callProvider
  simp only []
  split
  · exact key _ (callOpenAI_trace _ _ _ _)
  · split
    · exact key _ (callAnthropic_trace _ _ _ _)
    · split
      · exact key _ (callGemini_trace _ _ _ _)
      · split
        · exact key _ (callXAI_trace _ _ _ _)
        · exact Or.inl rfl

theorem callProvider_calls (env : Env X) (provider model : String) (convo : List Message)
    (m : Machine X) :
    (callProvider env provider model convo m).2.trace.countP Event.isCall
      = m.trace.countP Event.isCall + 1 := by
  rcases callProvider_trace env provider model convo m with h | ⟨req, h⟩ <;>
    simp [h, List.countP_append, List.countP_cons, Event.isCall]

theorem callProvider_actions (env : Env X) (provider model : String) (convo : List Message)
    (m : Machine X) :
    (callProvider env provider model convo m).2.trace.countP Event.isAction
      = m.trace.countP Event.isAction := by
  rcases callProvider_trace env provider model convo m with h | ⟨req, h⟩ <;>
    simp [h, List.countP_append, List.countP_cons, Event.isAction]

theorem callProvider_completes (env : Env X) (provider model : String) (convo : List Message)
    (m : Machine X) :
    (callProvider env provider model convo m).2.trace.countP Event.isComplete
      = m.trace.countP Event.isComplete := by
  rcases callProvider_trace env provider model convo m with h | ⟨req, h⟩ <;>
    simp [h, List.countP_append, List.countP_cons, Event.isComplete]

theorem opEvents_calls (op : Operation) : (opEvents op).countP Event.isCall = 0 := by
  unfold opEvents
  split <;> split <;> simp [Event.isCall]

theorem opEvents_completes (op : Operation) : (opEvents op).countP Event.isComplete = 0 := by
  unfold opEvents
  split <;> split <;> simp [Event.isComplete]

theorem flatMap_opEvents_calls (ops : List Operation) :
    (ops.flatMap opEvents).countP Event.isCall = 0 := by
  induction ops with
  | nil => simp
  | cons op ops ih => simp [List.flatMap_cons, List.countP_append, ih, opEvents_calls]

theorem flatMap_opEvents_completes (ops : List Operation) :
    (ops.flatMap opEvents).countP Event.isComplete = 0 := by
  induction ops with
  | nil => simp
  | cons op ops ih => simp [List.flatMap_cons, List.countP_append, ih, opEvents_completes]

theorem turn_provider_error (env : Env X) (provider model : String) (convo : List Message)
    (m : Machine X) (e : GoError)
    (h : (callProvider env provider model convo m).1 = .error e) :
    turn env provider model convo m =
      (.aborted e, (callProvider env provider model convo m).2.log
        (.printErr "error calling provider:" e)) := by
  unfold turn
  simp only [h]

theorem turn_parse_error (env : Env X) (provider model : String) (convo : List Message)
    (m : Machine X) (resp : String) (e : GoError)
    (h : (callProvider env provider model convo m).1 = .ok resp)
    (hp : parseOps resp = .error e) :
    turn env provider model convo m =
      (.aborted e, (callProvider env provider model convo m).2.log
        (.printErr "parse error:" e)) := by
  unfold turn
  simp only [h, hp]

theorem turn_bare_done (env : Env X) (provider model : String) (convo : List Message)
    (m : Machine X) (resp : String) (ops : List Operation)
    (h : (callProvider env provider model convo m).1 = .ok resp)
    (hp : parseOps resp = .ok ops) (hd : isBareDone ops = true) :
    turn env provider model convo m =
      (.done, (callProvider env provider model convo m).2.log (.print "Task complete")) := by
  unfold turn
  simp only [h, hp, hd, if_true]

theorem turn_execute (env : Env X) (provider model : String) (convo : List Message)
    (m : Machine X) (resp : String) (ops : List Operation)
    (h : (callProvider env provider model convo m).1 = .ok resp)
    (hp : parseOps resp = .ok ops) (hd : isBareDone ops = false) :
    turn env provider model convo m =
      (.next (convo ++ [⟨"assistant", resp⟩,
          ⟨"user", (executeOps env ops (callProvider env provider model convo m).2).1⟩]),
        (executeOps env ops (callProvider env provider model convo m).2).2) := by
  unfold turn
  simp only [h, hp, hd]
  simp

/-- The three shapes of a turn. -/
theorem turn_cases (env : Env X) (provider model : String) (convo : List Message)
    (m : Machine X) :
    (∃ e label, turn env provider model convo m =
        (.aborted e, (callProvider env provider model convo m).2.log (.printErr label e))) ∨
    turn env provider model convo m =
        (.done, (callProvider env provider model convo m).2.log (.print "Task complete")) ∨
    ∃ resp ops, (callProvider env provider model convo m).1 = .ok resp ∧
      parseOps resp = .ok ops ∧ isBareDone ops = false ∧
      turn env provider model convo m =
        (.next (convo ++ [⟨"assistant", resp⟩,
            ⟨"user", (executeOps env ops (callProvider env provider model convo m).2).1⟩]),
          (executeOps env ops (callProvider env provider model convo m).2).2) := by
  cases h : (callProvider env provider model convo m).1 with
  | error e => exact Or.inl ⟨e, _, turn_provider_error env provider model convo m e h⟩
  | ok resp =>
    cases hp : parseOps resp with
    | error e => exact Or.inl ⟨e, _, turn_parse_error env provider model convo m resp e h hp⟩
    | ok ops =>
      cases hd : isBareDone ops with
      | true => exact Or.inr (Or.inl (turn_bare_done env provider model convo m resp ops h hp hd))
      | false =>
        exact Or.inr (Or.inr ⟨resp, ops, rfl, hp, hd,
          turn_execute env provider model convo m resp ops h hp hd⟩)

theorem turn_calls (env : Env X) (provider model : String) (convo : List Message)
    (m : Machine X) :
    (turn env provider model convo m).2.trace.countP Event.isCall
      = m.trace.countP Event.isCall + 1 := by
  rcases turn_cases env provider model convo m with ⟨e, l, h⟩ | h | ⟨resp, ops, _, _, _, h⟩
  · simp [h, Machine.log, List.countP_append, Event.isCall, callProvider_calls]
  · simp [h, Machine.log, List.countP_append, Event.isCall, callProvider_calls]
  · simp [h, executeOps_trace, List.countP_append, flatMap_opEvents_calls, callProvider_calls]

theorem run_step (env : Env X) (provider model : String) (n : Nat) (convo : List Message)
    (m : Machine X) :
    run env provider model (n + 1) convo m =
      match (turn env provider model convo m).1 with
      | .done => ⟨.done, convo, (turn env provider model convo m).2⟩
      | .aborted e => ⟨.aborted e, convo, (turn env provider model convo m).2⟩
      | .next convo1 => run env provider model n convo1 (turn env provider model convo m).2 := by
  rfl

theorem run_calls_le (env : Env X) (provider model : String) (n : Nat) (convo : List Message)
    (m : Machine X) :
    (run env provider model n convo m).machine.trace.countP Event.isCall
      ≤ m.trace.countP Event.isCall + n := by
  induction n generalizing convo m with
  | zero => simp [run]
  | succ n ih =>
    rw [run_step]
    have hc := turn_calls env provider model convo m
    cases ht : (turn env provider model convo m).1 with
    | done => simp only []; omega
    | aborted e => simp only []; omega
    | next c =>
      simp only []
      have := ih c (turn env provider model convo m).2
      omega

theorem opEvents_actions_of_plain (op : Operation) (hs : op.shell = "") (he : op.edit = none) :
    opEvents op = [] := by
  unfold opEvents
  simp [hs, he]

theorem execOp_done_irrelevant (env : Env X) (op : Operation) (d : Bool) (out : String)
    (m : Machine X) :
    execOp env { op with done := d } out m = execOp env op out m := by
  rfl

theorem execOp_plain (env : Env X) (d : Bool) (out : String) (m : Machine X) :
    execOp env ⟨"", none, d⟩ out m = (out, m) := by
  simp [execOp, execShell, execEdit]

theorem executeOps_skip_plain (env : Env X) (pre post : List Operation) (d : Bool)
    (m : Machine X) :
    executeOps env (pre ++ ⟨"", none, d⟩ :: post) m = executeOps env (pre ++ post) m := by
  rw [executeOps_append, executeOps_append, executeOps_cons, execOp_plain]
  simp

theorem executeOps_clear_done (env : Env X) (ops : List Operation) (m : Machine X) :
    executeOps env (ops.map fun op => { op with done := false }) m = executeOps env ops m := by
  induction ops generalizing m with
  | nil => rfl
  | cons op ops ih =>
    rw [List.map_cons, executeOps_cons, executeOps_cons, execOp_done_irrelevant, ih]

theorem isBareDone_of_two_le (ops : List Operation) (h : 2 ≤ ops.length) :
    isBareDone ops = false := by
  match ops, h with
  | _ :: _ :: _, _ => rfl

theorem run_of_done (env : Env X) (provider model : String) (n : Nat) (convo : List Message)
    (m : Machine X) (m1 : Machine X) (h : turn env provider model convo m = (.done, m1)) :
    run env provider model (n + 1) convo m = ⟨.done, convo, m1⟩ := by
  rw [run_step, h]

theorem run_of_aborted (env : Env X) (provider model : String) (n : Nat)
    (convo : List Message) (m : Machine X) (e : GoError) (m1 : Machine X)
    (h : turn env provider model convo m = (.aborted e, m1)) :
    run env provider model (n + 1) convo m = ⟨.aborted e, convo, m1⟩ := by
  rw [run_step, h]

theorem run_of_next (env : Env X) (provider model : String) (n : Nat) (convo : List Message)
    (m : Machine X) (c : List Message) (m1 : Machine X)
    (h : turn env provider model convo m = (.next c, m1)) :
    run env provider model (n + 1) convo m = run env provider model n c m1 := by
  rw [run_step, h]

/-! ## The claims on the loop -/

/-- C1: when the reply of a turn parses to exactly one operation whose done
flag is set (as the reply `[{"done": true}]` does), the turn is the last one:
the run ends as done with `Task complete` printed once, the conversation is
the one the turn started with, no shell command is run and no file written
(whatever else the operation carries), the world is as the provider call left
it, and the provider was called once. -/
theorem bare_done_ends_loop (env : Env X) (provider model : String) (convo : List Message)
    (m : Machine X) (resp : String) (op : Operation) (n : Nat)
    (hcall : (callProvider env provider model convo m).1 = .ok resp)
    (hparse : parseOps resp = .ok [op]) (hdone : op.done = true) :
    parseOps "[\x7b\"done\": true\x7d]" = .ok [⟨"", none, true⟩] ∧
    (turn env provider model convo m).1 = .done ∧
    (run env provider model (n + 1) convo m).outcome = .done ∧
    (run env provider model (n + 1) convo m).convo = convo ∧
    (run env provider model (n + 1) convo m).machine =
      (callProvider env provider model convo m).2.log (.print "Task complete") ∧
    (run env provider model (n + 1) convo m).machine.trace.countP Event.isAction
      = m.trace.countP Event.isAction ∧
    (run env provider model (n + 1) convo m).machine.trace.countP Event.isCall
      = m.trace.countP Event.isCall + 1 ∧
    (run env provider model (n + 1) convo m).machine.trace.countP Event.isComplete
      = m.trace.countP Event.isComplete + 1 := by
  have ht := turn_bare_done env provider model convo m resp [op] hcall hparse
    (by simpa [isBareDone] using hdone)
  have hr := run_of_done env provider model n convo m _ ht
  refine ⟨rfl, by rw [ht], by rw [hr], by rw [hr], by rw [hr], ?_, ?_, ?_⟩
  · rw [hr]
    simp [Machine.log, List.countP_append, Event.isAction, callProvider_actions]
  · rw [hr]
    simp [Machine.log, List.countP_append, Event.isCall, callProvider_calls]
  · rw [hr]
    simp [Machine.log, List.countP_append, Event.isComplete, callProvider_completes]

/-- Witness of C1: the OpenAI backend answering with `[{"done": true}]`. -/
theorem bare_done_ends_loop_witness :
    (main (sampleEnv doneBody) "openai" "gpt-3.5-turbo" "say hi" sampleStart).outcome = .done ∧
    (main (sampleEnv doneBody) "openai" "gpt-3.5-turbo" "say hi" sampleStart).convo
      = initialConvo "say hi" ∧
    (main (sampleEnv doneBody) "openai" "gpt-3.5-turbo" "say hi"
      sampleStart).machine.trace.countP Event.isCall = 1 :=
  have h := bare_done_ends_loop (sampleEnv doneBody) "openai" "gpt-3.5-turbo"
    (initialConvo "say hi") sampleStart "[\x7b\"done\": true\x7d]" ⟨"", none, true⟩ 19
    rfl rfl rfl
  ⟨h.2.2.1, h.2.2.2.1, h.2.2.2.2.2.2.1⟩

theorem turn_next_completes (env : Env X) (provider model : String) (convo : List Message)
    (m : Machine X) (c : List Message) (h : (turn env provider model convo m).1 = .next c) :
    (turn env provider model convo m).2.trace.countP Event.isComplete
      = m.trace.countP Event.isComplete := by
  rcases turn_cases env provider model convo m with ⟨e, l, ht⟩ | ht | ⟨resp, ops, _, _, _, ht⟩
  · rw [ht] at h; cases h
  · rw [ht] at h; cases h
  · simp [ht, executeOps_trace, List.countP_append, flatMap_opEvents_completes,
      callProvider_completes]

/-- C2: when the reply of a turn parses to two or more operations of which at
least one has its done flag set, the turn does not complete the task: the
whole sequence goes to `executeOps`, the assistant message with the raw reply
and the user message with the transcript are appended, `Task complete` is not
printed, and with turns left the run goes on from there.  In `executeOps` the
done flags play no part, and an operation that is only a done signal (no
shell, no edit) can be dropped from the batch without changing transcript or
state. -/
theorem mixed_done_continues (env : Env X) (provider model : String) (convo : List Message)
    (m : Machine X) (resp : String) (ops : List Operation) (n : Nat)
    (hcall : (callProvider env provider model convo m).1 = .ok resp)
    (hparse : parseOps resp = .ok ops) (hlen : 2 ≤ ops.length)
    (_hdone : ∃ op ∈ ops, op.done = true) :
    turn env provider model convo m =
      (.next (convo ++ [⟨"assistant", resp⟩,
          ⟨"user", (executeOps env ops (callProvider env provider model convo m).2).1⟩]),
        (executeOps env ops (callProvider env provider model convo m).2).2) ∧
    run env provider model (n + 1) convo m =
      run env provider model n
        (convo ++ [⟨"assistant", resp⟩,
          ⟨"user", (executeOps env ops (callProvider env provider model convo m).2).1⟩])
        (executeOps env ops (callProvider env provider model convo m).2).2 ∧
    (turn env provider model convo m).2.trace.countP Event.isComplete
      = m.trace.countP Event.isComplete ∧
    (∀ m1 : Machine X,
      executeOps env (ops.map fun op => { op with done := false }) m1 = executeOps env ops m1) ∧
    (∀ (pre post : List Operation) (m1 : Machine X), ops = pre ++ ⟨"", none, true⟩ :: post →
      executeOps env ops m1 = executeOps env (pre ++ post) m1) := by
  have ht := turn_execute env provider model convo m resp ops hcall hparse
    (isBareDone_of_two_le ops hlen)
  refine ⟨ht, run_of_next env provider model n convo m _ _ ht, ?_, ?_, ?_⟩
  · exact turn_next_completes env provider model convo m _ (by rw [ht])
  · intro m1
    exact executeOps_clear_done env ops m1
  · intro pre post m1 h
    rw [h]
    exact executeOps_skip_plain env pre post true m1

/-- Witness of C2: the reply `[{"shell":"false"},{"done":true}]` on the first
turn of a run: the command is run, its failure is reported in the new user
message, and the turn counts as an ordinary one. -/
theorem mixed_done_continues_witness :
    turn (sampleEnv mixedBody) "openai" "gpt-3.5-turbo" (initialConvo "go") sampleStart =
      (.next (initialConvo "go" ++
          [⟨"assistant", "[\x7b\"shell\":\"false\"\x7d,\x7b\"done\":true\x7d]"⟩,
           ⟨"user", "$ false\n\n(error: exit status 1)\n"⟩]),
        (executeOps (sampleEnv mixedBody) [⟨"false", none, false⟩, ⟨"", none, true⟩]
          (callProvider (sampleEnv mixedBody) "openai" "gpt-3.5-turbo" (initialConvo "go")
            sampleStart).2).2) :=
  (mixed_done_continues (sampleEnv mixedBody) "openai" "gpt-3.5-turbo" (initialConvo "go")
    sampleStart "[\x7b\"shell\":\"false\"\x7d,\x7b\"done\":true\x7d]"
    [⟨"false", none, false⟩, ⟨"", none, true⟩] 0 rfl rfl (by decide)
    ⟨⟨"", none, true⟩, by simp, rfl⟩).1

/-- C5: when `callProvider` returns an error, or `parseOps` returns an error
on the reply (as it does on `{not valid json`), the turn is the last one: the
run ends as aborted with that error, the conversation is the one the turn
started with, the world is as the provider call left it, no shell command is
run and no file written, `Task complete` is not printed, and the provider was
called once. -/
theorem failed_turn_aborts (env : Env X) (provider model : String) (convo : List Message)
    (m : Machine X) (e : GoError) (n : Nat)
    (h : (callProvider env provider model convo m).1 = .error e ∨
      ∃ resp, (callProvider env provider model convo m).1 = .ok resp ∧
        parseOps resp = .error e) :
    parseOps "\x7bnot valid json" = .error .jsonSyntax ∧
    (turn env provider model convo m).1 = .aborted e ∧
    (run env provider model (n + 1) convo m).outcome = .aborted e ∧
    (run env provider model (n + 1) convo m).convo = convo ∧
    (run env provider model (n + 1) convo m).machine.world
      = (callProvider env provider model convo m).2.world ∧
    (run env provider model (n + 1) convo m).machine.trace.countP Event.isAction
      = m.trace.countP Event.isAction ∧
    (run env provider model (n + 1) convo m).machine.trace.countP Event.isCall
      = m.trace.countP Event.isCall + 1 ∧
    (run env provider model (n + 1) convo m).machine.trace.countP Event.isComplete
      = m.trace.countP Event.isComplete := by
  have ht : ∃ label, turn env provider model convo m =
      (.aborted e, (callProvider env provider model convo m).2.log (.printErr label e)) := by
    rcases h with h | ⟨resp, h, hp⟩
    · exact ⟨_, turn_provider_error env provider model convo m e h⟩
    · exact ⟨_, turn_parse_error env provider model convo m resp e h hp⟩
  obtain ⟨label, ht⟩ := ht
  have hr := run_of_aborted env provider model n convo m e _ ht
  refine ⟨rfl, by rw [ht], by rw [hr], by rw [hr], by rw [hr]; rfl, ?_, ?_, ?_⟩
  · rw [hr]
    simp [Machine.log, List.countP_append, Event.isAction, callProvider_actions]
  · rw [hr]
    simp [Machine.log, List.countP_append, Event.isCall, callProvider_calls]
  · rw [hr]
    simp [Machine.log, List.countP_append, Event.isComplete, callProvider_completes]

/-- Witness of C5: a run whose first reply is `{not valid json`. -/
theorem failed_turn_aborts_witness :
    (main (sampleEnv brokenBody) "anthropic" "claude" "go" sampleStart).outcome
      = .aborted .jsonSyntax ∧
    (main (sampleEnv brokenBody) "anthropic" "claude" "go" sampleStart).convo
      = initialConvo "go" ∧
    (main (sampleEnv brokenBody) "anthropic" "claude" "go"
      sampleStart).machine.trace.countP Event.isCall = 1 :=
  have h := failed_turn_aborts (sampleEnv brokenBody) "anthropic" "claude" (initialConvo "go")
    sampleStart .jsonSyntax 19 (Or.inr ⟨"\x7bnot valid json", rfl, rfl⟩)
  ⟨h.2.2.1, h.2.2.2.1, h.2.2.2.2.2.2.1⟩

theorem run_conversation (env : Env X) (provider model : String) (n : Nat)
    (convo : List Message) (m : Machine X) :
    ∃ k, k ≤ n ∧
      (run env provider model n convo m).convo.length = convo.length + 2 * k ∧
      convo <+: (run env provider model n convo m).convo ∧
      (run env provider model n convo m).machine.trace.countP Event.isCall
        = m.trace.countP Event.isCall + k +
          (if (run env provider model n convo m).outcome = .limit then 0 else 1) ∧
      ((run env provider model n convo m).outcome = .limit → k = n) := by
  induction n generalizing convo m with
  | zero => exact ⟨0, le_refl _, by simp [run], by simp [run], by simp [run], fun _ => rfl⟩
  | succ n ih =>
    have hc := turn_calls env provider model convo m
    rcases turn_cases env provider model convo m with ⟨e, l, ht⟩ | ht | ⟨resp, ops, _, _, _, ht⟩
    · rw [run_of_aborted env provider model n convo m e _ ht]
      rw [ht] at hc
      exact ⟨0, Nat.zero_le _, by simp, by simp, by simpa using hc, by simp⟩
    · rw [run_of_done env provider model n convo m _ ht]
      rw [ht] at hc
      exact ⟨0, Nat.zero_le _, by simp, by simp, by simpa using hc, by simp⟩
    · rw [run_of_next env provider model n convo m _ _ ht]
      rw [ht] at hc
      obtain ⟨k, hk, hlen, hpre, hcalls, hlim⟩ := ih _ _
      refine ⟨k + 1, by omega, ?_, ?_, ?_, ?_⟩
      · rw [hlen]
        simp
        omega
      · exact List.IsPrefix.trans (List.prefix_append _ _) hpre
      · rw [hcalls]
        simp only [] at hc
        rw [hc]
        omega
      · intro h
        rw [hlim h]

/-- C4: the conversation only grows, by two messages per turn that goes on.
A run of `main` starts from the system message and the user prompt.  A turn
either ends the run, or hands on the conversation it started with followed by
the assistant message with the raw reply and the user message with the
transcript of `executeOps` on the parsed reply.  At the end of a run of at most
`n` turns from a conversation, the final conversation is that conversation
followed by two messages for each of the `k` turns that went on: it has
`2 * k` more messages, every earlier message is still at its position, and
the provider was called `k` times, and once more on the turn that completed or
aborted, if one did. -/
theorem conversation_append_only (env : Env X) (provider model : String) (n : Nat)
    (convo : List Message) (m : Machine X) :
    (∀ prompt, prompt ≠ "" →
      main env provider model prompt m =
        run env provider model 20 [⟨"system", systemPrompt⟩, ⟨"user", prompt⟩] m) ∧
    ((∃ e, (turn env provider model convo m).1 = .aborted e ∧
        (run env provider model (n + 1) convo m).convo = convo) ∨
      ((turn env provider model convo m).1 = .done ∧
        (run env provider model (n + 1) convo m).convo = convo) ∨
      ∃ resp ops, (callProvider env provider model convo m).1 = .ok resp ∧
        parseOps resp = .ok ops ∧
        (turn env provider model convo m).1 =
          .next (convo ++ [⟨"assistant", resp⟩,
            ⟨"user", (executeOps env ops (callProvider env provider model convo m).2).1⟩])) ∧
    ∃ k, k ≤ n ∧
      (run env provider model n convo m).convo.length = convo.length + 2 * k ∧
      convo <+: (run env provider model n convo m).convo ∧
      (∀ i, i < convo.length → (run env provider model n convo m).convo[i]? = convo[i]?) ∧
      (run env provider model n convo m).machine.trace.countP Event.isCall
        = m.trace.countP Event.isCall + k +
          (if (run env provider model n convo m).outcome = .limit then 0 else 1) ∧
      ((run env provider model n convo m).outcome = .limit → k = n) := by
  refine ⟨?_, ?_, ?_⟩
  · intro prompt hp
    simp [main, hp, maxTurns, initialConvo]
  · rcases turn_cases env provider model convo m with ⟨e, l, ht⟩ | ht | ⟨resp, ops, h1, h2, _, ht⟩
    · exact Or.inl ⟨e, by rw [ht], by rw [run_of_aborted env provider model n convo m e _ ht]⟩
    · exact Or.inr (Or.inl ⟨by rw [ht], by rw [run_of_done env provider model n convo m _ ht]⟩)
    · exact Or.inr (Or.inr ⟨resp, ops, h1, h2, by rw [ht]⟩)
  · obtain ⟨k, hk, hlen, hpre, hcalls, hlim⟩ := run_conversation env provider model n convo m
    refine ⟨k, hk, hlen, hpre, ?_, hcalls, hlim⟩
    intro i hi
    obtain ⟨t, ht⟩ := hpre
    rw [← ht, List.getElem?_append_left hi]

theorem run_productive (env : Env X) (provider model : String) (n : Nat)
    (convo : List Message) (m : Machine X) (h : Productive env provider model n convo m) :
    (run env provider model n convo m).outcome = .limit ∧
    (run env provider model n convo m).convo.length = convo.length + 2 * n ∧
    (run env provider model n convo m).machine.trace.countP Event.isCall
      = m.trace.countP Event.isCall + n ∧
    (run env provider model n convo m).machine.trace.countP Event.isComplete
      = m.trace.countP Event.isComplete := by
  induction n generalizing convo m with
  | zero => simp [run]
  | succ n ih =>
    obtain ⟨resp, ops, hcall, hparse, hd, hrest⟩ := h
    have ht := turn_execute env provider model convo m resp ops hcall hparse hd
    have hc := turn_calls env provider model convo m
    have hcomp := turn_next_completes env provider model convo m _ (by rw [ht])
    rw [ht] at hc hcomp
    rw [run_of_next env provider model n convo m _ _ ht]
    obtain ⟨h1, h2, h3, h4⟩ := ih _ _ hrest
    refine ⟨h1, ?_, ?_, ?_⟩
    · rw [h2]; simp; omega
    · rw [h3]; simp only [] at hc; rw [hc]; omega
    · rw [h4]; exact hcomp

theorem sampleEnv_idle_productive (model : String) (n : Nat) (convo : List Message)
    (m : Machine Unit) : Productive (sampleEnv idleBody) "anthropic" model n convo m := by
  induction n generalizing convo m with
  | zero => trivial
  | succ n ih => exact ⟨"[]", [], rfl, rfl, rfl, ih _ _⟩

/-- C3: a run of `main` calls the provider at most 20 times, whatever the
provider does; and when the first 20 replies all come back without error,
parse, and are not a lone done operation, the run stops at the ceiling after
exactly 20 provider calls, without printing `Task complete`, with a
conversation of 42 messages. -/
theorem turn_ceiling (env : Env X) (provider model prompt : String) (m : Machine X) :
    (main env provider model prompt m).machine.trace.countP Event.isCall
      ≤ m.trace.countP Event.isCall + 20 ∧
    (prompt ≠ "" → Productive env provider model 20 (initialConvo prompt) m →
      (main env provider model prompt m).outcome = .limit ∧
      (main env provider model prompt m).convo.length = 42 ∧
      (main env provider model prompt m).machine.trace.countP Event.isCall
        = m.trace.countP Event.isCall + 20 ∧
      (main env provider model prompt m).machine.trace.countP Event.isComplete
        = m.trace.countP Event.isComplete) := by
  constructor
  · unfold main
    split
    · simp [Machine.log, List.countP_append, Event.isCall]
    · exact run_calls_le env provider model maxTurns (initialConvo prompt) m
  · intro hp h
    have hr := run_productive env provider model 20 (initialConvo prompt) m h
    have hm : main env provider model prompt m
        = run env provider model 20 (initialConvo prompt) m := by
      simp [main, hp, maxTurns]
    rw [hm]
    exact ⟨hr.1, by rw [hr.2.1]; rfl, hr.2.2.1, hr.2.2.2⟩

/-- Witness of C3: a provider that answers every call with the empty batch
`[]`. -/
theorem turn_ceiling_witness :
    (main (sampleEnv idleBody) "anthropic" "claude" "go" sampleStart).outcome = .limit ∧
    (main (sampleEnv idleBody) "anthropic" "claude" "go" sampleStart).convo.length = 42 ∧
    (main (sampleEnv idleBody) "anthropic" "claude" "go"
      sampleStart).machine.trace.countP Event.isCall = 20 ∧
    (main (sampleEnv idleBody) "anthropic" "claude" "go"
      sampleStart).machine.trace.countP Event.isComplete = 0 :=
  (turn_ceiling (sampleEnv idleBody) "anthropic" "claude" "go" sampleStart).2 (by decide)
    (sampleEnv_idle_productive "claude" 20 (initialConvo "go") sampleStart)

/-- Witness of C4: a run of one turn whose reply is
`[{"shell":"false"},{"done":true}]`: `main` starts from the two initial
messages, and the system message is still first at the end. -/
theorem conversation_append_only_witness :
    main (sampleEnv mixedBody) "openai" "gpt-3.5-turbo" "go" sampleStart =
      run (sampleEnv mixedBody) "openai" "gpt-3.5-turbo" 20
        [⟨"system", systemPrompt⟩, ⟨"user", "go"⟩] sampleStart ∧
    (run (sampleEnv mixedBody) "openai" "gpt-3.5-turbo" 1 (initialConvo "go")
      sampleStart).convo[0]? = some ⟨"system", systemPrompt⟩ :=
  have h := conversation_append_only (sampleEnv mixedBody) "openai" "gpt-3.5-turbo" 1
    (initialConvo "go") sampleStart
  ⟨h.1 "go" (by decide),
    h.2.2.elim fun _ hk => hk.2.2.2.1 0 (by decide)⟩

/-! ## The claims on `executeOps` -/

theorem execOp_shell (env : Env X) (cmd : String) (d : Bool) (m : Machine X)
    (hcmd : cmd ≠ "") :
    execOp env ⟨cmd, none, d⟩ "" m =
      (shellEntry cmd (env.bash cmd m.world).1.1 (env.bash cmd m.world).1.2,
        afterShell env cmd m) := by
  simp [execOp, execShell, execEdit, hcmd, afterShell]

theorem execOp_edit (env : Env X) (path content : String) (d : Bool) (m : Machine X) :
    execOp env ⟨"", some ⟨path, content⟩, d⟩ "" m =
      ("edited " ++ path ++ "\n", (writeFile env path content m).2) := by
  simp [execOp, execShell, execEdit, String.append_assoc]

theorem executeOps_single (env : Env X) (op : Operation) (m : Machine X) :
    executeOps env [op] m = execOp env op "" m := by
  rfl

theorem shellEntry_error (cmd output err : String) :
    shellEntry cmd output (some err) =
      "$ " ++ cmd ++ "\n" ++ output ++ "\n" ++ "(error: " ++ err ++ ")\n" := by
  simp only [shellEntry, String.append_assoc]
  rfl

/-- C6: `executeOps` runs the operations in order and never stops early.  A
shell operation at any place of a batch adds to the transcript, after the text
of the operations before it, the line `$ <command>`, the combined output and a
newline, followed by the line `(error: <err>)` exactly when the command
returned an error; the operations after it are then executed from the state
the command left, and their text follows.  The interactions of a batch are
those of its operations in order, whatever the outcome of each. -/
theorem shell_failure_reported (env : Env X) (pre post : List Operation) (cmd : String)
    (d : Bool) (m : Machine X) (hcmd : cmd ≠ "") :
    executeOps env (pre ++ ⟨cmd, none, d⟩ :: post) m =
      ((executeOps env pre m).1 ++
          shellEntry cmd (env.bash cmd (executeOps env pre m).2.world).1.1
            (env.bash cmd (executeOps env pre m).2.world).1.2 ++
          (executeOps env post (afterShell env cmd (executeOps env pre m).2)).1,
        (executeOps env post (afterShell env cmd (executeOps env pre m).2)).2) ∧
    (∀ output err, shellEntry cmd output (some err) =
      "$ " ++ cmd ++ "\n" ++ output ++ "\n" ++ "(error: " ++ err ++ ")\n") ∧
    (∀ output, shellEntry cmd output none = "$ " ++ cmd ++ "\n" ++ output ++ "\n") ∧
    (∀ (ops : List Operation) (m1 : Machine X),
      (executeOps env ops m1).2.trace = m1.trace ++ ops.flatMap opEvents) := by
  refine ⟨?_, fun output err => shellEntry_error cmd output err, fun _ => rfl,
    fun ops m1 => executeOps_trace env ops m1⟩
  rw [executeOps_append, executeOps_cons, execOp_shell env cmd d _ hcmd]
  simp [String.append_assoc]

/-- Witness of C6: a failing command between two edits. -/
theorem shell_failure_reported_witness :
    executeOps (sampleEnv "")
        ([⟨"", some ⟨"a.txt", "x"⟩, false⟩] ++ ⟨"false", none, false⟩ ::
          [⟨"", some ⟨"b.txt", "y"⟩, false⟩, ⟨"echo", none, false⟩]) sampleStart =
      ("edited a.txt\n" ++ "$ false\n\n(error: exit status 1)\n" ++
          "edited b.txt\n$ echo\nok\n\n",
        (executeOps (sampleEnv "") [⟨"", some ⟨"b.txt", "y"⟩, false⟩, ⟨"echo", none, false⟩]
          (afterShell (sampleEnv "") "false"
            (executeOps (sampleEnv "") [⟨"", some ⟨"a.txt", "x"⟩, false⟩] sampleStart).2)).2) :=
  (shell_failure_reported (sampleEnv "") [⟨"", some ⟨"a.txt", "x"⟩, false⟩]
    [⟨"", some ⟨"b.txt", "y"⟩, false⟩, ⟨"echo", none, false⟩] "false" false sampleStart
    (by decide)).1

theorem writeFile_stored (env : Env X) (path content : String) (m : Machine X)
    (hok : env.writeFail path content m.world = none)
    (hreg : env.writeDevice path content m.world = none) :
    (writeFile env path content m).2.world = m.world.store path content := by
  simp [writeFile, hok, hreg]

theorem execShell_plain (env : Env X) (op : Operation) (out : String) (m : Machine X)
    (h : op.shell = "") : execShell env op out m = (out, m) := by
  simp [execShell, h]

theorem executeOps_last_edit (env : Env X) (pre : List Operation) (op : Operation)
    (path content : String) (m : Machine X) (hedit : op.edit = some ⟨path, content⟩) :
    (executeOps env (pre ++ [op]) m).2 =
      (writeFile env path content (execShell env op "" (executeOps env pre m).2).2).2 := by
  rw [executeOps_append, executeOps_single]
  simp [execOp, execEdit, hedit]

/-- C7 fails as stated.  Writing `./hello.txt` changes what the other path
`hello.txt` holds, since both name one file; and a write to `/dev/null`
succeeds while reading `/dev/null` does not give back the content. -/
theorem edit_reaches_other_path :
    "hello.txt" ≠ "./hello.txt" ∧
    (writeFile (sampleEnv "") "./hello.txt" "hi" sampleFiles).1 = none ∧
    sampleFiles.world.read "hello.txt" = some "previous content" ∧
    (executeOps (sampleEnv "") [⟨"", some ⟨"./hello.txt", "hi"⟩, false⟩]
      sampleFiles).2.world.read "hello.txt" = some "hi" ∧
    (writeFile (sampleEnv "") "/dev/null" "hi" sampleFiles).1 = none ∧
    (executeOps (sampleEnv "") [⟨"", some ⟨"/dev/null", "hi"⟩, false⟩]
      sampleFiles).2.world.read "/dev/null" = some "" :=
  ⟨by decide, rfl, rfl, rfl, rfl, rfl⟩

/-- C7 as amended: when an operation with an edit `{path, content}` is executed
and the write succeeds on a regular file, then right after `executeOps` has
executed it, reading the file at `path` gives exactly `content`, whatever was
there when the write happened (nothing, or any content); every path that names
the same file gives `content` too; every path that names another file reads as
it did when the write happened; and which file a path names is unchanged.  The
write happens after the operations before it and after the shell command of
the operation itself, which for an operation without shell command is the
state the operations before it left.  The reply
`[{"edit":{"path":"hello.txt","content":"hi"}}]` parses to the one operation
`Edit{hello.txt, hi}`. -/
theorem edit_overwrites (env : Env X) (pre : List Operation) (op : Operation)
    (path content : String) (m : Machine X)
    (hedit : op.edit = some ⟨path, content⟩)
    (hok : env.writeFail path content (beforeWrite env pre op m) = none)
    (hreg : env.writeDevice path content (beforeWrite env pre op m) = none) :
    (executeOps env (pre ++ [op]) m).2.world.read path = some content ∧
    (∀ p, (beforeWrite env pre op m).node p = (beforeWrite env pre op m).node path →
      (executeOps env (pre ++ [op]) m).2.world.read p = some content) ∧
    (∀ p, (beforeWrite env pre op m).node p ≠ (beforeWrite env pre op m).node path →
      (executeOps env (pre ++ [op]) m).2.world.read p = (beforeWrite env pre op m).read p) ∧
    (executeOps env (pre ++ [op]) m).2.world.node = (beforeWrite env pre op m).node ∧
    (op.shell = "" → beforeWrite env pre op m = (executeOps env pre m).2.world) ∧
    (op.shell ≠ "" → beforeWrite env pre op m
      = (env.bash op.shell (executeOps env pre m).2.world).2) ∧
    parseOps "[\x7b\"edit\":\x7b\"path\":\"hello.txt\",\"content\":\"hi\"\x7d\x7d]"
      = .ok [⟨"", some ⟨"hello.txt", "hi"⟩, false⟩] := by
  have h : (executeOps env (pre ++ [op]) m).2.world
      = (beforeWrite env pre op m).store path content := by
    rw [executeOps_last_edit env pre op path content m hedit]
    exact writeFile_stored env path content _ hok hreg
  refine ⟨?_, ?_, ?_, ?_, ?_, ?_, rfl⟩
  · rw [h]; simp [World.read, World.store]
  · intro p hp
    rw [h]; simp [World.read, World.store, hp]
  · intro p hp
    rw [h]; simp [World.read, World.store, hp]
  · rw [h]; rfl
  · intro hs
    unfold beforeWrite
    rw [execShell_plain env op "" _ hs]
  · intro hs
    simp [beforeWrite, execShell, hs]

/-- Witness of C7 as amended: `hello.txt` with earlier content is overwritten
through the path `./hello.txt`; both paths then read `hi`, and `notes.txt`
keeps its content. -/
theorem edit_overwrites_witness :
    (executeOps (sampleEnv "") ([] ++ [⟨"", some ⟨"./hello.txt", "hi"⟩, false⟩])
      sampleFiles).2.world.read "./hello.txt" = some "hi" ∧
    (executeOps (sampleEnv "") ([] ++ [⟨"", some ⟨"./hello.txt", "hi"⟩, false⟩])
      sampleFiles).2.world.read "hello.txt" = some "hi" ∧
    (executeOps (sampleEnv "") ([] ++ [⟨"", some ⟨"./hello.txt", "hi"⟩, false⟩])
      sampleFiles).2.world.read "notes.txt" = some "keep me" :=
  have h := edit_overwrites (sampleEnv "") [] ⟨"", some ⟨"./hello.txt", "hi"⟩, false⟩
    "./hello.txt" "hi" sampleFiles rfl rfl rfl
  ⟨h.1, h.2.1 "hello.txt" (by decide), h.2.2.1 "notes.txt" (by decide)⟩

/-- C8: an edit operation adds exactly `edited <path>` and a newline to the
transcript, whether the write succeeds or fails: at any place of a batch the
text of the operations before it, this line, and the text of the operations
after it, executed from the state the write left.  A failed write leaves the
error out of the transcript, and the turn goes on to the next one as for any
other batch.  The single operation `Edit{hello.txt, hi}` gives the transcript
`edited hello.txt` and a newline. -/
theorem edit_entry_unconditional (env : Env X) (pre post : List Operation)
    (path content : String) (d : Bool) (m : Machine X) :
    executeOps env (pre ++ ⟨"", some ⟨path, content⟩, d⟩ :: post) m =
      ((executeOps env pre m).1 ++ ("edited " ++ path ++ "\n") ++
          (executeOps env post (writeFile env path content (executeOps env pre m).2).2).1,
        (executeOps env post (writeFile env path content (executeOps env pre m).2).2).2) ∧
    (∀ err w, env.writeFail path content m.world = some (err, w) →
      (writeFile env path content m).1 = some err ∧
      executeOps env [⟨"", some ⟨path, content⟩, d⟩] m =
        ("edited " ++ path ++ "\n", ⟨w, m.trace ++ [.write path content]⟩)) ∧
    (env.writeFail path content m.world = none →
      (executeOps env [⟨"", some ⟨path, content⟩, d⟩] m).1 = "edited " ++ path ++ "\n") ∧
    (∀ (provider model resp : String) (convo : List Message) (ops : List Operation),
      (callProvider env provider model convo m).1 = .ok resp → parseOps resp = .ok ops →
      isBareDone ops = false →
      (turn env provider model convo m).1 =
        .next (convo ++ [⟨"assistant", resp⟩,
          ⟨"user", (executeOps env ops (callProvider env provider model convo m).2).1⟩])) ∧
    (executeOps env [⟨"", some ⟨"hello.txt", "hi"⟩, false⟩] m).1 = "edited hello.txt\n" := by
  refine ⟨?_, ?_, ?_, ?_, ?_⟩
  · rw [executeOps_append, executeOps_cons, execOp_edit]
    simp [String.append_assoc]
  · intro err w hw
    constructor
    · simp [writeFile, hw]
    · rw [executeOps_single, execOp_edit]
      simp [writeFile, hw]
  · intro _
    rw [executeOps_single, execOp_edit]
  · intro provider model resp convo ops hcall hparse hd
    rw [turn_execute env provider model convo m resp ops hcall hparse hd]
  · rw [executeOps_single, execOp_edit]
    rfl

/-- Witness of C8: a write that fails, followed by a command. -/
theorem edit_entry_unconditional_witness :
    (writeFile (sampleEnv "") "/proc/version" "x" sampleStart).1
      = some "open /proc/version: permission denied" ∧
    executeOps (sampleEnv "") [⟨"", some ⟨"/proc/version", "x"⟩, false⟩] sampleStart =
      ("edited " ++ "/proc/version" ++ "\n",
        ⟨sampleStart.world, sampleStart.trace ++ [.write "/proc/version" "x"]⟩) :=
  (edit_entry_unconditional (sampleEnv "") [] [] "/proc/version" "x" false sampleStart).2.1
    "open /proc/version: permission denied" sampleStart.world rfl

/-! ## The claims on the provider envelopes and on `parseOps` -/

/-- C9 fails for `callAnthropic`: on the response body `{}`, valid JSON with no
`content`, it returns the empty string as a reply and no error, while
`callOpenAI`, `callXAI` and `callGemini` return an error on the same body, and
`callGemini` on a candidate without parts.  A choice without a message also
yields the empty string from `callOpenAI` and `callXAI`. -/
theorem callAnthropic_empty_envelope :
    parseJson emptyBody = some (.obj []) ∧
    (callAnthropic (sampleEnv emptyBody) "claude" (initialConvo "go") sampleStart).1
      = .ok "" ∧
    (callProvider (sampleEnv emptyBody) "anthropic" "claude" (initialConvo "go")
      sampleStart).1 = .ok "" ∧
    (callOpenAI (sampleEnv emptyBody) "gpt" (initialConvo "go") sampleStart).1
      = .error (.text "no choices") ∧
    (callXAI (sampleEnv emptyBody) "grok" (initialConvo "go") sampleStart).1
      = .error (.text "no choices") ∧
    (callGemini (sampleEnv emptyBody) "gemini" (initialConvo "go") sampleStart).1
      = .error (.text "no response") ∧
    (callGemini (sampleEnv hollowCandidateBody) "gemini" (initialConvo "go") sampleStart).1
      = .error (.text "no response") ∧
    (callOpenAI (sampleEnv hollowChoiceBody) "gpt" (initialConvo "go") sampleStart).1
      = .ok "" ∧
    (callXAI (sampleEnv hollowChoiceBody) "grok" (initialConvo "go") sampleStart).1
      = .ok "" :=
  ⟨rfl, rfl, rfl, rfl, rfl, rfl, rfl, rfl, rfl⟩

theorem decodeEditFields_ok (ms : List (String × Json)) (cur : Edit)
    (h : ∀ kv ∈ ms, (if keyIs kv.1 "path" || keyIs kv.1 "content" then kv.2.isStr else true)
      = true) :
    ∃ e, decodeEditFields ms cur = .ok e := by
  induction ms generalizing cur with
  | nil => exact ⟨cur, rfl⟩
  | cons kv ms ih =>
    obtain ⟨k, v⟩ := kv
    have hk := h (k, v) (List.mem_cons_self _ _)
    have hrest : ∀ kv ∈ ms,
        (if keyIs kv.1 "path" || keyIs kv.1 "content" then kv.2.isStr else true) = true :=
      fun kv hkv => h kv (List.mem_cons_of_mem _ hkv)
    unfold decodeEditFields
    by_cases hp : keyIs k "path" = true
    · simp only [hp, Bool.true_or, if_true] at hk
      cases v <;> simp [Json.isStr] at hk
      simp only [hp, if_true, decodeString]
      exact ih _ hrest
    · by_cases hc : keyIs k "content" = true
      · simp only [hc, Bool.or_true, if_true] at hk
        cases v <;> simp [Json.isStr] at hk
        simp only [hp, hc, if_true, decodeString]
        exact ih _ hrest
      · simp only [hp, hc]
        exact ih _ hrest

theorem decodeEditPtr_ok (v : Json) (cur : Option Edit) (h : isEditObject v = true) :
    ∃ e, decodeEditPtr v cur = .ok e := by
  cases v <;> simp [isEditObject] at h
  rename_i ms
  obtain ⟨e, he⟩ := decodeEditFields_ok ms (cur.getD ⟨"", ""⟩) (by
    intro kv hkv
    have := h kv.1 kv.2 hkv
    simpa using this)
  exact ⟨some e, by simp [decodeEditPtr, he]⟩

theorem decodeOperationFields_ok (ms : List (String × Json)) (cur : Operation)
    (h : ∀ kv ∈ ms,
      (if keyIs kv.1 "shell" then kv.2.isStr
        else if keyIs kv.1 "edit" then isEditObject kv.2
        else if keyIs kv.1 "done" then kv.2.isBool
        else true) = true) :
    ∃ op, decodeOperationFields ms cur = .ok op := by
  induction ms generalizing cur with
  | nil => exact ⟨cur, rfl⟩
  | cons kv ms ih =>
    obtain ⟨k, v⟩ := kv
    have hk := h (k, v) (List.mem_cons_self _ _)
    have hrest := fun kv hkv => h kv (List.mem_cons_of_mem _ hkv)
    unfold decodeOperationFields
    by_cases hs : keyIs k "shell" = true
    · simp only [hs, if_true] at hk
      cases v <;> simp [Json.isStr] at hk
      simp only [hs, if_true, decodeString]
      exact ih _ hrest
    · by_cases he : keyIs k "edit" = true
      · simp only [hs, he, if_true] at hk
        obtain ⟨ed, hed⟩ := decodeEditPtr_ok v cur.edit (by simpa using hk)
        simp only [hs, he, if_true, hed]
        exact ih _ hrest
      · by_cases hd : keyIs k "done" = true
        · simp only [hs, he, hd, if_true] at hk
          cases v <;> simp [Json.isBool] at hk
          simp only [hs, he, hd, if_true, decodeBool]
          exact ih _ hrest
        · simp only [hs, he, hd]
          exact ih _ hrest

theorem decodeOperation_ok (v : Json) (cur : Operation) (h : isOperationObject v = true) :
    ∃ op, decodeOperation v cur = .ok op := by
  cases v <;> simp [isOperationObject] at h
  rename_i ms
  exact decodeOperationFields_ok ms cur (by
    intro kv hkv
    have := h kv.1 kv.2 hkv
    simpa using this)

theorem decodeSlice_fresh {α : Type} (dec : Json → α → Except GoError α) (zero : α)
    (xs : List Json) (h : ∀ x ∈ xs, ∃ a, dec x zero = .ok a) :
    ∃ as, decodeSlice dec zero xs [] = .ok as ∧
      List.Forall₂ (fun x a => dec x zero = .ok a) xs as := by
  induction xs with
  | nil => exact ⟨[], rfl, List.Forall₂.nil⟩
  | cons x xs ih =>
    obtain ⟨a, ha⟩ := h x (List.mem_cons_self _ _)
    obtain ⟨as, has, hall⟩ := ih fun y hy => h y (List.mem_cons_of_mem _ hy)
    refine ⟨a :: as, ?_, List.Forall₂.cons ha hall⟩
    simp [decodeSlice, ha, has]

/-- C10 fails at the input `null`: it is valid JSON and not an array, and
`parseOps` returns the empty sequence of operations and no error. -/
theorem parseOps_null_accepted :
    parseJson "null" = some .null ∧ parseOps "null" = .ok [] ∧
    ∀ e, parseOps "null" ≠ .error e :=
  ⟨rfl, rfl, fun _ h => by cases h⟩

/-- C10 as amended: `parseOps` returns an error and no operations on every input
that is not valid JSON and on every valid JSON value that is neither an array
nor `null`; on `null` it returns the empty sequence and no error; and on a
valid JSON array whose elements are objects with an optional `shell` string,
an optional `edit` object (with string `path` and `content`) and an optional
`done` boolean it returns one operation per element, in the order received:
the operation at each place is the one its element decodes to. -/
theorem parseOps_accepts (s : String) :
    (parseJson s = none → parseOps s = .error .jsonSyntax) ∧
    (∀ v, parseJson s = some v → (∀ xs, v ≠ .arr xs) → v ≠ .null →
      parseOps s = .error .jsonType) ∧
    (parseJson s = some .null → parseOps s = .ok []) ∧
    (∀ xs, parseJson s = some (.arr xs) → (∀ x ∈ xs, isOperationObject x = true) →
      ∃ ops, parseOps s = .ok ops ∧ ops.length = xs.length ∧
        List.Forall₂ (fun x op => decodeOperation x Operation.zero = .ok op) xs ops) ∧
    (∀ c, decodeOperation (.obj [("shell", .str c)]) Operation.zero = .ok ⟨c, none, false⟩) ∧
    (∀ p c, decodeOperation (.obj [("edit", .obj [("path", .str p), ("content", .str c)])])
      Operation.zero = .ok ⟨"", some ⟨p, c⟩, false⟩) ∧
    (∀ b, decodeOperation (.obj [("done", .bool b)]) Operation.zero = .ok ⟨"", none, b⟩) := by
  refine ⟨?_, ?_, ?_, ?_, fun _ => rfl, fun _ _ => rfl, fun _ => rfl⟩
  · intro h
    simp [parseOps, h]
  · intro v h harr hnull
    cases v with
    | arr xs => exact absurd rfl (harr xs)
    | null => exact absurd rfl hnull
    | _ => simp [parseOps, h, decodeOps]
  · intro h
    simp [parseOps, h, decodeOps]
  · intro xs h hall
    obtain ⟨ops, hops, hrel⟩ := decodeSlice_fresh decodeOperation Operation.zero xs
      fun x hx => decodeOperation_ok x Operation.zero (hall x hx)
    exact ⟨ops, by simp [parseOps, h, decodeOps, hops], hrel.length_eq.symm, hrel⟩

/-- Witness of C10 as amended: a batch of a shell command, an edit and a done
signal. -/
theorem parseOps_accepts_witness :
    ∃ ops, parseOps "[\x7b\"shell\":\"ls\"\x7d, \x7b\"edit\":\x7b\"path\":\"a\",\"content\":\"b\"\x7d\x7d, \x7b\"done\":true\x7d]" = .ok ops ∧
      ops.length = 3 ∧
      List.Forall₂ (fun x op => decodeOperation x Operation.zero = .ok op)
        [.obj [("shell", .str "ls")],
         .obj [("edit", .obj [("path", .str "a"), ("content", .str "b")])],
         .obj [("done", .bool true)]] ops :=
  (parseOps_accepts "[\x7b\"shell\":\"ls\"\x7d, \x7b\"edit\":\x7b\"path\":\"a\",\"content\":\"b\"\x7d\x7d, \x7b\"done\":true\x7d]").2.2.2.1
    [.obj [("shell", .str "ls")],
     .obj [("edit", .obj [("path", .str "a"), ("content", .str "b")])],
     .obj [("done", .bool true)]] rfl (by decide)

/-! ## The recursion budget of the scanner is never used up -/

theorem skipSpace_length_le (cs : List Char) : (skipSpace cs).length ≤ cs.length := by
  induction cs with
  | nil => simp [skipSpace]
  | cons c cs ih =>
    unfold skipSpace
    split
    · simp; omega
    · simp

theorem skipSpace_cons_length {cs : List Char} {d : Char} {rest : List Char}
    (h : skipSpace cs = d :: rest) : rest.length + 1 ≤ cs.length := by
  have := skipSpace_length_le cs
  rw [h] at this
  simpa using this

theorem scanString_rest_lt (fuel : Nat) (cs : List Char) (s out : List Char)
    (h : scanString fuel cs = .ok s out) : out.length < cs.length := by
  induction fuel generalizing cs s out with
  | zero => simp [scanString] at h
  | succ fuel ih =>
    cases cs with
    | nil => simp [scanString] at h
    | cons c cs =>
      have hd : ∀ (n : Nat) (l : List Char), (l.drop n).length ≤ l.length := by
        intro n l; simp
      simp only [scanString] at h
      split at h
      · cases h; simp
      · split at h
        · split at h
          · cases h
          · rename_i e rest
            split at h
            · split at h
              · cases h
              · split at h
                · split at h
                  · split at h
                    · rename_i s1 out1 hs
                      cases h
                      have := ih _ _ _ hs
                      have h1 := hd 6 (List.drop 4 rest)
                      have h2 := hd 4 rest
                      simp only [List.length_cons]
                      omega
                    · cases h
                    · cases h
                  · split at h
                    · rename_i s1 out1 hs
                      cases h
                      have := ih _ _ _ hs
                      have h2 := hd 4 rest
                      simp only [List.length_cons]
                      omega
                    · cases h
                    · cases h
                · split at h
                  · rename_i s1 out1 hs
                    cases h
                    have := ih _ _ _ hs
                    have h2 := hd 4 rest
                    simp only [List.length_cons]
                    omega
                  · cases h
                  · cases h
            · split at h
              · cases h
              · split at h
                · rename_i s1 out1 hs
                  cases h
                  have := ih _ _ _ hs
                  simp only [List.length_cons]
                  omega
                · cases h
                · cases h
        · split at h
          · cases h
          · split at h
            · rename_i s1 out1 hs
              cases h
              have := ih _ _ _ hs
              simp only [List.length_cons]
              omega
            · cases h
            · cases h

theorem scanString_not_starved (fuel : Nat) (cs : List Char) (h : cs.length < fuel) :
    scanString fuel cs ≠ .starved := by
  induction fuel generalizing cs with
  | zero => omega
  | succ fuel ih =>
    cases cs with
    | nil => simp [scanString]
    | cons c cs =>
      have hd : ∀ (n : Nat) (l : List Char), (l.drop n).length ≤ l.length := by
        intro n l; simp
      simp only [List.length_cons] at h
      have hcs : cs.length < fuel := by omega
      simp only [scanString]
      split
      · simp
      · split
        · split
          · simp
          · rename_i e rest
            have hrest : rest.length < fuel := by simp only [List.length_cons] at hcs; omega
            split
            · split
              · simp
              · split
                · split
                  · have := ih (List.drop 6 (List.drop 4 rest)) (by
                      have h1 := hd 6 (List.drop 4 rest)
                      have h2 := hd 4 rest
                      omega)
                    split <;> simp_all
                  · have := ih (List.drop 4 rest) (by have h2 := hd 4 rest; omega)
                    split <;> simp_all
                · have := ih (List.drop 4 rest) (by have h2 := hd 4 rest; omega)
                  split <;> simp_all
            · split
              · simp
              · have := ih rest hrest
                split <;> simp_all
        · split
          · simp
          · have := ih cs hcs
            split <;> simp_all

theorem takeDigits_length_le (cs : List Char) : (takeDigits cs).2.length ≤ cs.length := by
  induction cs with
  | nil => simp [takeDigits]
  | cons c cs ih =>
    unfold takeDigits
    split
    · simp; omega
    · simp

theorem scanInt_rest_lt (cs i r : List Char) (h : scanInt cs = some (i, r)) :
    r.length < cs.length := by
  cases cs with
  | nil => simp [scanInt] at h
  | cons c cs =>
    simp only [scanInt] at h
    have := takeDigits_length_le cs
    split at h
    · cases h; simp
    · split at h
      · cases h; simp; omega
      · cases h

theorem scanFrac_rest_le (cs f r : List Char) (h : scanFrac cs = some (f, r)) :
    r.length ≤ cs.length := by
  cases cs with
  | nil => simp [scanFrac] at h; simp [h]
  | cons c cs =>
    simp only [scanFrac] at h
    have := takeDigits_length_le cs
    split at h
    · split at h
      · cases h
      · rename_i ds rest _ heq
        cases h
        rw [heq] at this
        simp at this ⊢
        omega
    · cases h; simp

theorem scanExp_rest_le (cs e r : List Char) (h : scanExp cs = some (e, r)) :
    r.length ≤ cs.length := by
  cases cs with
  | nil => simp [scanExp] at h; simp [h]
  | cons c cs =>
    simp only [scanExp] at h
    split at h
    · split at h
      · cases h
      · rename_i s rest
        split at h
        · have := takeDigits_length_le rest
          split at h
          · cases h
          · rename_i ds out _ heq
            cases h
            rw [heq] at this
            simp at this ⊢
            omega
        · have := takeDigits_length_le (s :: rest)
          split at h
          · cases h
          · rename_i ds out _ heq
            cases h
            rw [heq] at this
            simp at this ⊢
            omega
    · cases h; simp

theorem scanNumber_rest_lt (cs s r : List Char) (h : scanNumber cs = .ok s r) :
    r.length < cs.length := by
  unfold scanNumber at h
  simp only [] at h
  split at h
  · cases h
  · rename_i i r1 hi
    split at h
    · cases h
    · rename_i f r2 hf
      split at h
      · cases h
      · rename_i e r3 he
        cases h
        have h1 := scanInt_rest_lt _ _ _ hi
        have h2 := scanFrac_rest_le _ _ _ hf
        have h3 := scanExp_rest_le _ _ _ he
        have hb : (match cs with
            | [] => cs
            | c :: rest => if c = '-' then rest else cs).length ≤ cs.length := by
          cases cs with
          | nil => simp
          | cons c rest =>
            simp only []
            split <;> simp
        omega

theorem scanNumber_not_starved (cs : List Char) : scanNumber cs ≠ .starved := by
  unfold scanNumber
  simp only []
  split
  · simp
  · split
    · simp
    · split <;> simp

theorem scanWord_rest_le (w cs r : List Char) (h : scanWord w cs = some r) :
    r.length ≤ cs.length := by
  induction w generalizing cs with
  | nil => simp [scanWord] at h; simp [h]
  | cons a w ih =>
    cases cs with
    | nil => simp [scanWord] at h
    | cons c cs =>
      simp only [scanWord] at h
      split at h
      · have := ih _ h
        simp; omega
      · cases h

/-- Whatever the scanner reads, it reads at least one character. -/
theorem parse_rest_lt (fuel : Nat) :
    (∀ d cs v r, parseValue fuel d cs = .ok v r → r.length < cs.length) ∧
    (∀ d cs vs r, parseElems fuel d cs = .ok vs r → r.length < cs.length) ∧
    (∀ d cs ms r, parseMembers fuel d cs = .ok ms r → r.length < cs.length) := by
  induction fuel with
  | zero =>
    refine ⟨?_, ?_, ?_⟩ <;> intro d cs v r h
    · simp [parseValue] at h
    · simp [parseElems] at h
    · simp [parseMembers] at h
  | succ fuel ih =>
    obtain ⟨ihV, ihE, ihM⟩ := ih
    refine ⟨?_, ?_, ?_⟩
    · intro d cs v r h
      cases cs with
      | nil => simp [parseValue] at h
      | cons c cs =>
        simp only [parseValue] at h
        split at h
        · split at h
          · cases h
          · split at h
            · cases h
            · rename_i d1 rest hsk
              have hl := skipSpace_cons_length hsk
              split at h
              · cases h; simp; omega
              · split at h
                · rename_i ms out hm
                  cases h
                  have := ihM _ _ _ _ hm
                  simp at this ⊢; omega
                · cases h
                · cases h
        · split at h
          · split at h
            · cases h
            · split at h
              · cases h
              · rename_i d1 rest hsk
                have hl := skipSpace_cons_length hsk
                split at h
                · cases h; simp; omega
                · split at h
                  · rename_i xs out hm
                    cases h
                    have := ihE _ _ _ _ hm
                    simp at this ⊢; omega
                  · cases h
                  · cases h
          · split at h
            · split at h
              · rename_i s out hs
                cases h
                have := scanString_rest_lt _ _ _ _ hs
                simp; omega
              · cases h
              · cases h
            · split at h
              · split at h
                · rename_i s out hs
                  cases h
                  exact scanNumber_rest_lt _ _ _ hs
                · cases h
                · cases h
              · split at h
                · split at h
                  · rename_i out hs
                    cases h
                    have := scanWord_rest_le _ _ _ hs
                    simp; omega
                  · cases h
                · split at h
                  · split at h
                    · rename_i out hs
                      cases h
                      have := scanWord_rest_le _ _ _ hs
                      simp; omega
                    · cases h
                  · split at h
                    · split at h
                      · rename_i out hs
                        cases h
                        have := scanWord_rest_le _ _ _ hs
                        simp; omega
                      · cases h
                    · cases h
    · intro d cs vs r h
      simp only [parseElems] at h
      split at h
      · cases h
      · cases h
      · rename_i v r1 hv
        have h1 := ihV _ _ _ _ hv
        split at h
        · cases h
        · rename_i d1 rest hsk
          have hl := skipSpace_cons_length hsk
          split at h
          · split at h
            · rename_i vs1 out he
              cases h
              have := ihE _ _ _ _ he
              have := skipSpace_length_le rest
              omega
            · cases h
            · cases h
          · split at h
            · cases h; omega
            · cases h
    · intro d cs ms r h
      cases cs with
      | nil => simp [parseMembers] at h
      | cons q cs =>
        simp only [parseMembers] at h
        split at h
        · split at h
          · cases h
          · cases h
          · rename_i k r0 hk
            have h0 := scanString_rest_lt _ _ _ _ hk
            split at h
            · cases h
            · rename_i colon r1 hsk
              have hl := skipSpace_cons_length hsk
              split at h
              · split at h
                · cases h
                · cases h
                · rename_i v r2 hv
                  have h2 := ihV _ _ _ _ hv
                  have hs1 := skipSpace_length_le r1
                  split at h
                  · cases h
                  · rename_i d1 rest hsk2
                    have hl2 := skipSpace_cons_length hsk2
                    split at h
                    · split at h
                      · rename_i ms1 out hm
                        cases h
                        have := ihM _ _ _ _ hm
                        have := skipSpace_length_le rest
                        simp; omega
                      · cases h
                      · cases h
                    · split at h
                      · cases h; simp; omega
                      · cases h
              · cases h
        · cases h

/-- With a budget of twice the input length and a little more, the scanner
never stops for lack of budget. -/
theorem parse_not_starved (fuel : Nat) :
    (∀ d cs, 2 * cs.length + 1 ≤ fuel → parseValue fuel d cs ≠ .starved) ∧
    (∀ d cs, 2 * cs.length + 2 ≤ fuel → parseElems fuel d cs ≠ .starved) ∧
    (∀ d cs, 2 * cs.length + 2 ≤ fuel → parseMembers fuel d cs ≠ .starved) := by
  induction fuel with
  | zero =>
    refine ⟨?_, ?_, ?_⟩ <;> intro d cs h <;> omega
  | succ fuel ih =>
    obtain ⟨ihV, ihE, ihM⟩ := ih
    obtain ⟨ltV, ltE, ltM⟩ := parse_rest_lt fuel
    refine ⟨?_, ?_, ?_⟩
    · intro d cs hf
      cases cs with
      | nil => simp [parseValue]
      | cons c cs =>
        simp only [List.length_cons] at hf
        simp only [parseValue]
        split
        · split
          · simp
          · split
            · simp
            · rename_i d1 rest hsk
              have hl := skipSpace_cons_length hsk
              split
              · simp
              · have := ihM (d + 1) (d1 :: rest) (by simp only [List.length_cons]; omega)
                split <;> simp_all
        · split
          · split
            · simp
            · split
              · simp
              · rename_i d1 rest hsk
                have hl := skipSpace_cons_length hsk
                split
                · simp
                · have := ihE (d + 1) (d1 :: rest) (by simp only [List.length_cons]; omega)
                  split <;> simp_all
          · split
            · have := scanString_not_starved (cs.length + 1) cs (by omega)
              split <;> simp_all
            · split
              · have := scanNumber_not_starved (c :: cs)
                split <;> simp_all
              · split
                · split <;> simp
                · split
                  · split <;> simp
                  · split
                    · split <;> simp
                    · simp
    · intro d cs hf
      simp only [parseElems]
      have hv := ihV d cs (by omega)
      split
      · simp
      · rename_i hs; exact absurd hs hv
      · rename_i v r1 hv1
        have h1 := ltV _ _ _ _ hv1
        split
        · simp
        · rename_i d1 rest hsk
          have hl := skipSpace_cons_length hsk
          split
          · have := ihE d (skipSpace rest) (by
              have := skipSpace_length_le rest
              omega)
            split <;> simp_all
          · split <;> simp
    · intro d cs hf
      cases cs with
      | nil => simp [parseMembers]
      | cons q cs =>
        simp only [List.length_cons] at hf
        simp only [parseMembers]
        split
        · have hstr := scanString_not_starved (cs.length + 1) cs (by omega)
          split
          · simp
          · rename_i hs; exact absurd hs hstr
          · rename_i k r0 hk
            have h0 := scanString_rest_lt _ _ _ _ hk
            split
            · simp
            · rename_i colon r1 hsk
              have hl := skipSpace_cons_length hsk
              split
              · have hs1 := skipSpace_length_le r1
                have hv := ihV d (skipSpace r1) (by omega)
                split
                · simp
                · rename_i hs; exact absurd hs hv
                · rename_i v r2 hv2
                  have h2 := ltV _ _ _ _ hv2
                  split
                  · simp
                  · rename_i d1 rest hsk2
                    have hl2 := skipSpace_cons_length hsk2
                    split
                    · have := ihM d (skipSpace rest) (by
                        have := skipSpace_length_le rest
                        omega)
                      split <;> simp_all
                    · split <;> simp
              · simp
        · simp

/-- The budget of `parseJson` is enough: it returns `none` only on a syntax
error, that is when no value can be read or when something other than white
space follows the value. -/
theorem parseJson_none_iff (s : String) :
    parseJson s = none ↔
      parseValue (2 * s.data.length + 2) 0 (skipSpace s.data) = .bad ∨
      ∃ v rest, parseValue (2 * s.data.length + 2) 0 (skipSpace s.data) = .ok v rest ∧
        skipSpace rest ≠ [] := by
  have hns := (parse_not_starved (2 * s.data.length + 2)).1 0 (skipSpace s.data) (by
    have := skipSpace_length_le s.data
    omega)
  unfold parseJson
  cases h : parseValue (2 * s.data.length + 2) 0 (skipSpace s.data) with
  | ok v rest =>
    by_cases hr : skipSpace rest = []
    · simp [hr]
    · simp only [hr, if_false, true_iff]
      exact Or.inr ⟨v, rest, rfl, hr⟩
  | bad => simp
  | starved => exact absurd h hns

end ModelCli
